import Mathlib

/-!
# prodaccess: credential materialisation on Unix (`prodaccess_nix.go`)

A shallow embedding of the five activators of `prodaccess_nix.go` over an explicit
model of what they act on: a filesystem (path ↦ content and permission bits), the
operating system's answers to each call (which may refuse a call), and the external
tools run through `/usr/bin/env`. Every activator is a function from a world to a
world; the world also records, in order, each operation the activator performed.
-/

namespace Prodaccess

/-! ## Strings -/

/-- A Go `string`, as the list of its characters. -/
abbrev GoString := List Char

/-- A file name. -/
abbrev Path := GoString

/-- Go `strings.Contains(s, substr)`: `substr` starts at some position of `s`. -/
def stringsContains : GoString → GoString → Bool
  | [], substr => substr.isPrefixOf []
  | c :: s, substr => substr.isPrefixOf (c :: s) || stringsContains s substr

/-- Go `strings.HasSuffix(s, suffix)`. -/
def stringsHasSuffix (s suffix : GoString) : Bool :=
  decide (suffix.length ≤ s.length) && s.drop (s.length - suffix.length) == suffix

/-- Go `strings.TrimSuffix(s, suffix)`: `s[:len(s)-len(suffix)]` when `s` ends in
`suffix`, else `s`. -/
def stringsTrimSuffix (s suffix : GoString) : GoString :=
  if stringsHasSuffix s suffix then s.take (s.length - suffix.length) else s

/-- Number of positions of `s` at which `pat` starts (occurrences may overlap). -/
def countOccurrences (pat : GoString) : GoString → Nat
  | [] => if pat.isPrefixOf [] then 1 else 0
  | c :: s => (if pat.isPrefixOf (c :: s) then 1 else 0) + countOccurrences pat s

/-- Whether some proper non-empty beginning of `pat` is also its end. -/
def hasBorder (pat : GoString) : Bool :=
  (List.range pat.length).any fun m => decide (0 < m) && pat.take m == pat.drop (pat.length - m)

/-! ## Flags and constants (source lines 16-25) -/

/-- The package-level flag values (each is a path that `os.ExpandEnv` expands). -/
structure Flags where
  sshPubKey : GoString
  sshCert : GoString
  sshKnownHosts : GoString
  vaultTokenPath : GoString
  vmwareCertPath : GoString
  browserCertPath : GoString

/-- The flag defaults. -/
def defaultFlags : Flags where
  sshPubKey := "$HOME/.ssh/id_ecdsa.pub".toList
  sshCert := "$HOME/.ssh/id_ecdsa-cert.pub".toList
  sshKnownHosts := "$HOME/.ssh/known_hosts".toList
  vaultTokenPath := "$HOME/.vault-token".toList
  vmwareCertPath := "$HOME/vmware-user.pfx".toList
  browserCertPath := "$HOME/browser-user.pfx".toList

/-- The fixed trust line `certAuthority`. -/
def certAuthority : GoString :=
  "@cert-authority *.event.dreamhack.se ecdsa-sha2-nistp521 AAAAE2VjZHNhLXNoYTItbmlzdHA1MjEAAAAIbmlzdHA1MjEAAACFBAC/xT7a8A4Gm1Tf0mpKstqncWsOZpGPKa0lqf7EuYSpWUnx5QLaiP2TcI80AELTw2gP9jzOkpN7/QO91V3edRXGLAGk3NiNZLqvJspYfAnEo9f3/E4GBZf4kcDC93+04SzbFg+qMY3iCmJNaIttUMdQwaR22c+HbOYhaGEFWN3OCa6Erw== vault@tech.dreamhack.se".toList

/-! ## Filesystem, operating system and external tools -/

/-- A regular file: its bytes and its permission bits. -/
structure File where
  content : GoString
  perm : Nat
  deriving DecidableEq, Repr

/-- The filesystem: what each path holds, `none` when nothing is there. -/
abbrev FS := Path → Option File

/-- The filesystem with `name` set to `f` (`none` deletes it). -/
def FS.set (fs : FS) (name : Path) (f : Option File) : FS :=
  fun q => if q = name then f else fs q

/-- The calls the operating system may refuse. -/
inductive Syscall where
  | openFile (name : Path)
  | write (name : Path)
  | readFile (name : Path)
  | remove (name : Path)
  | tempFile (pattern : GoString)
  deriving DecidableEq, Repr

/-- How `cmd.Run()` ended: exit status 0, a non-zero exit status, or the command
could not be started. -/
inductive ExitStatus where
  | success
  | exitError (code : Nat)
  | startError
  deriving DecidableEq, Repr

/-- What one run of an external tool did: how it ended, its two output streams, and
the bytes it wrote to the file it writes (`none`: it wrote nothing). -/
structure ExecResult where
  status : ExitStatus
  stdout : GoString
  stderr : GoString
  output : Option GoString

/-- Everything outside the program: the environment variables (`expandEnv`), the
operating system's refusals (`fault op fs`: call `op` fails in state `fs` for a reason
of its own: permission, full disk, ...), the process umask (one that keeps the owner
bits: the process can use the files it creates), the temp directory and the random
part of a temp name, the executable search path, what a tool found on that path does
when run, the configuration file that kubectl rewrites, and the mode with which a
tool creates the file it writes when that file is not there. -/
structure Env where
  expandEnv : GoString → GoString
  fault : Syscall → FS → Bool
  umask : Nat
  umaskOwner : umask &&& 0o700 = 0
  tempDir : GoString
  nextRandom : FS → GoString
  lookPath : GoString → Bool
  run : List GoString → FS → ExecResult
  kubeConfig : Path
  toolMode : Nat

/-- The flags of `os.OpenFile` that matter here (the access mode changes nothing
in this model). -/
structure OpenFlag where
  append : Bool := false
  create : Bool := false
  excl : Bool := false
  trunc : Bool := false
  deriving DecidableEq, Repr

/-- One operation performed, with its arguments and how it went. Error values
given to `log.Printf` are not recorded, the other arguments are. -/
inductive Event where
  | log (format : GoString) (args : List GoString)
  | openFile (name : Path) (flag : OpenFlag) (perm : Nat) (ok : Bool)
  | write (name : Path) (data : GoString) (ok : Bool)
  | close (name : Path)
  | readFile (name : Path) (ok : Bool)
  | remove (name : Path) (ok : Bool)
  | tempFile (dir pattern : GoString) (name : Option Path)
  | exec (argv : List GoString) (status : ExitStatus)
  deriving DecidableEq, Repr

/-- The state an activator runs in: the filesystem, and the operations so far. -/
structure World where
  fs : FS
  trace : List Event

/-- A Go `*os.File`: `none` is the nil pointer, `some name` an open file. -/
abbrev Handle := Option Path

/-- How a call of an activator ends: it returns, or it panics (a nil `*os.File`
is dereferenced). -/
inductive Outcome where
  | returned (w : World)
  | panicked (w : World)

/-- Record one operation. -/
def World.emit (w : World) (e : Event) : World :=
  { w with trace := w.trace ++ [e] }

/-- Go `log.Printf(format, args...)`. -/
def logPrintf (format : GoString) (args : List GoString) (w : World) : World :=
  w.emit (.log format args)

/-- The mode a new file gets: `perm &^ umask`, the bits of `perm` that the umask
does not clear. -/
def applyUmask (perm umask : Nat) : Nat :=
  perm ^^^ (perm &&& umask)

/-- Go `os.OpenFile(name, flag, perm)`: an existing file is opened (refused under
`O_EXCL`, emptied under `O_TRUNC`, its permission bits kept); a missing one is
created empty with `perm` (before umask) under `O_CREATE` and is an error otherwise. -/
def osOpenFile (env : Env) (name : Path) (flag : OpenFlag) (perm : Nat) (w : World) :
    World × Handle :=
  if env.fault (.openFile name) w.fs then
    (w.emit (.openFile name flag perm false), none)
  else
    match w.fs name with
    | some f =>
      if flag.create && flag.excl then
        (w.emit (.openFile name flag perm false), none)
      else if flag.trunc then
        ({ w with fs := w.fs.set name (some { f with content := [] }) }.emit
          (.openFile name flag perm true), some name)
      else
        (w.emit (.openFile name flag perm true), some name)
    | none =>
      if flag.create then
        ({ w with fs := w.fs.set name (some ⟨[], applyUmask perm env.umask⟩) }.emit
          (.openFile name flag perm true), some name)
      else
        (w.emit (.openFile name flag perm false), none)

/-- Go `f.Write(b)` and `f.WriteString(s)`: on a nil file an error and nothing
else; otherwise the bytes go to the end of the file (every file written here is
either opened with `O_APPEND` or was just created or emptied). -/
def fileWrite (env : Env) (f : Handle) (data : GoString) (w : World) : World × Bool :=
  match f with
  | none => (w, false)
  | some name =>
    if env.fault (.write name) w.fs then
      (w.emit (.write name data false), false)
    else
      match w.fs name with
      | some file =>
        ({ w with fs := w.fs.set name (some { file with content := file.content ++ data }) }.emit
          (.write name data true), true)
      | none => (w.emit (.write name data false), false)

/-- Go `f.Close()`: nothing happens on a nil file. -/
def fileClose (f : Handle) (w : World) : World :=
  match f with
  | none => w
  | some name => w.emit (.close name)

/-- Go `ioutil.WriteFile(filename, data, perm)`: open with
`O_WRONLY|O_CREATE|O_TRUNC`, write, close; `true` is a nil error. -/
def ioutilWriteFile (env : Env) (filename : Path) (data : GoString) (perm : Nat) (w : World) :
    World × Bool :=
  match osOpenFile env filename { create := true, trunc := true } perm w with
  | (w1, none) => (w1, false)
  | (w1, some name) =>
    let r := fileWrite env (some name) data w1
    (fileClose (some name) r.1, r.2)

/-- Go `ioutil.ReadFile(filename)`: the content, `none` on error. -/
def ioutilReadFile (env : Env) (filename : Path) (w : World) : World × Option GoString :=
  if env.fault (.readFile filename) w.fs then
    (w.emit (.readFile filename false), none)
  else
    match w.fs filename with
    | some f => (w.emit (.readFile filename true), some f.content)
    | none => (w.emit (.readFile filename false), none)

/-- Go `os.Remove(name)`: the file is deleted; an error (`false`) when the call is
refused or nothing is there. -/
def osRemove (env : Env) (name : Path) (w : World) : World × Bool :=
  if env.fault (.remove name) w.fs then
    (w.emit (.remove name false), false)
  else
    match w.fs name with
    | some _ => ({ w with fs := w.fs.set name none }.emit (.remove name true), true)
    | none => (w.emit (.remove name false), false)

/-- The name `ioutil.TempFile("", pattern)` settles on: the temp directory, the
pattern and a random string chosen by the environment. -/
def tempName (env : Env) (pattern : GoString) (fs : FS) : Path :=
  env.tempDir ++ "/".toList ++ pattern ++ env.nextRandom fs

/-- Go `ioutil.TempFile("", pattern)`: a new file, created empty with mode 0600
(before umask) under a name that was not in use (`O_EXCL`), or nil on error. -/
def ioutilTempFile (env : Env) (pattern : GoString) (w : World) : World × Handle :=
  if env.fault (.tempFile pattern) w.fs then
    (w.emit (.tempFile [] pattern none), none)
  else
    match w.fs (tempName env pattern w.fs) with
    | some _ => (w.emit (.tempFile [] pattern none), none)
    | none =>
      let created : File := ⟨[], applyUmask 0o600 env.umask⟩
      ({ w with fs := w.fs.set (tempName env pattern w.fs) (some created) }.emit
        (.tempFile [] pattern (some (tempName env pattern w.fs))),
        some (tempName env pattern w.fs))

/-- A tool writes its file: an existing file is overwritten and keeps its
permission bits, a missing one is created with the tool's own mode. -/
def toolWrite (env : Env) (name : Path) (data : GoString) (fs : FS) : FS :=
  match fs name with
  | some f => fs.set name (some { f with content := data })
  | none => fs.set name (some ⟨data, env.toolMode⟩)

/-- What `/usr/bin/env` does when the program it is given is not on the search
path: exit status 127, nothing run. -/
def notFound : ExecResult where
  status := .exitError 127
  stdout := []
  stderr := []
  output := none

/-- One run of `/usr/bin/env program operands...` (every command of this file is run
that way): `env` looks the program up on the search path, as `exec.LookPath` does,
and runs it only when it is found there. -/
def toolRun (env : Env) (argv : List GoString) (fs : FS) : ExecResult :=
  match argv with
  | _ :: program :: _ => if env.lookPath program then env.run argv fs else notFound
  | _ => env.run argv fs

/-- Go `exec.Command(argv...).Run()`. `out` is the file the tool writes when it runs:
the `-out` operand of `openssl pkcs12`, its configuration file for
`kubectl config set-credentials`, no file for `ssh-add` (it talks to the SSH agent). -/
def cmdRun (env : Env) (argv : List GoString) (out : Option Path) (w : World) :
    World × ExecResult :=
  let r := toolRun env argv w.fs
  let fs1 :=
    match out, r.output with
    | some name, some data => toolWrite env name data w.fs
    | _, _ => w.fs
  ({ w with fs := fs1 }.emit (.exec argv r.status), r)

/-! ## The activators -/

/-- Source lines 28-32: the certificate is written to `cp`. -/
def sshWriteCertificate (env : Env) (cp : Path) (c : GoString) (w : World) : World :=
  let wr := ioutilWriteFile env cp c 0o644 w
  if wr.2 then wr.1 else logPrintf "failed to write SSH certificate: %v".toList [] wr.1

/-- Source lines 34-53: add cert authority to known_hosts. The second component
is the files whose `Close` is deferred to the end of `sshLoadCertificate`. -/
def sshUpdateKnownHosts (env : Env) (path : Path) (w : World) : World × List Handle :=
  let rd := ioutilReadFile env path w
  match rd.2 with
  | none => (logPrintf "failed to read SSH known hosts: %v".toList [] rd.1, [])
  | some kh =>
    if !stringsContains kh certAuthority then
      let w2 := logPrintf "adding server identity to SSH known hosts".toList [] rd.1
      let op := osOpenFile env path { append := true } 0o600 w2
      let w3 :=
        if op.2.isNone then
          logPrintf "failed to open SSH known hosts file for writing: %v".toList [] op.1
        else op.1
      let ws := fileWrite env op.2 certAuthority w3
      let w4 :=
        if ws.2 then ws.1
        else logPrintf "failed to write to SSH known hosts file: %v".toList [] ws.1
      (w4, [op.2])
    else
      (logPrintf "skipping SSH known hosts, already exists".toList [] rd.1, [])

/-- Source lines 27-58, `sshLoadCertificate(c)`: the certificate write, the
known-hosts update, then `ssh-add` on the private key (OpenSSH requires adding the
private key again to load certificates), then the deferred `Close`. -/
def sshLoadCertificate (env : Env) (flags : Flags) (c : GoString) (w : World) : World :=
  let cp := env.expandEnv flags.sshCert
  let w1 := sshWriteCertificate env cp c w
  let path := env.expandEnv flags.sshKnownHosts
  let upd := sshUpdateKnownHosts env path w1
  let pp := stringsTrimSuffix cp "-cert.pub".toList
  let ex := cmdRun env ["/usr/bin/env".toList, "ssh-add".toList, pp] none upd.1
  upd.2.foldr fileClose ex.1

/-- Source lines 60-67, `sshGetPublicKey()`: the key text, `none` on error. -/
def sshGetPublicKey (env : Env) (flags : Flags) (w : World) : World × Option GoString :=
  let rd := ioutilReadFile env (env.expandEnv flags.sshPubKey) w
  match rd.2 with
  | none => (logPrintf "could not read SSH public key: %v".toList [] rd.1, none)
  | some key => (rd.1, some key)

/-- Source lines 69-76, `saveVaultToken(t)`. -/
def saveVaultToken (env : Env) (flags : Flags) (t : GoString) (w : World) : World :=
  let tp := env.expandEnv flags.vaultTokenPath
  let rm := osRemove env tp w
  let wr := ioutilWriteFile env tp t 0o400 rm.1
  if wr.2 then wr.1 else logPrintf "failed to write Vault token: %v".toList [] wr.1

/-- Source lines 78-84, `hasKubectl()`. -/
def hasKubectl (env : Env) : Bool :=
  if env.lookPath "kubectl".toList then true else false

/-- Source lines 86-102, `saveKubernetesCertificate(c, k)`. -/
def saveKubernetesCertificate (env : Env) (c k : GoString) (w : World) : Outcome :=
  let cf := ioutilTempFile env "prodaccess-k8s".toList w
  let kf := ioutilTempFile env "prodaccess-k8s".toList cf.1
  let w1 := (fileWrite env cf.2 c kf.1).1
  let w2 := (fileWrite env kf.2 k w1).1
  match cf.2, kf.2 with
  | some cp, some kp =>
    let w3 := fileClose kf.2 (fileClose cf.2 w2)
    let ex := cmdRun env
      ["/usr/bin/env".toList, "kubectl".toList, "config".toList, "set-credentials".toList,
        "dhtech".toList, "--embed-certs=true".toList,
        "--client-certificate=".toList ++ cp, "--client-key=".toList ++ kp]
      (some env.kubeConfig) w3
    let w4 := (osRemove env cp ex.1).1
    .returned (osRemove env kp w4).1
  | _, _ => .panicked w2

/-- Source lines 104-132, `saveVmwareCertificate(c, k)`. -/
def saveVmwareCertificate (env : Env) (flags : Flags) (c k : GoString) (w : World) : Outcome :=
  let cf := ioutilTempFile env "prodaccess-vmware".toList w
  let kf := ioutilTempFile env "prodaccess-vmware".toList cf.1
  let w1 := (fileWrite env cf.2 c kf.1).1
  let w2 := (fileWrite env kf.2 k w1).1
  match cf.2, kf.2 with
  | some cp, some kp =>
    let w3 := fileClose kf.2 (fileClose cf.2 w2)
    let fp := env.expandEnv flags.vmwareCertPath
    let w4 := (osRemove env fp w3).1
    let w5 := (osOpenFile env fp { create := true } 0o600 w4).1
    let ex := cmdRun env
      ["/usr/bin/env".toList, "openssl".toList, "pkcs12".toList, "-export".toList,
        "-password".toList, "pass:".toList, "-in".toList, cp, "-inkey".toList, kp,
        "-out".toList, fp] (some fp) w5
    let w6 :=
      if ex.2.status ≠ .success then
        logPrintf "Error output: %s".toList [ex.2.stderr]
          (logPrintf "Standard output: %s".toList [ex.2.stdout]
            (logPrintf "Failed to emit VMware certificate: %v".toList [] ex.1))
      else ex.1
    let w7 := (osRemove env cp w6).1
    .returned (osRemove env kp w7).1
  | _, _ => .panicked w2

/-- Source lines 134-162, `saveBrowserCertificate(c, k)`. -/
def saveBrowserCertificate (env : Env) (flags : Flags) (c k : GoString) (w : World) : Outcome :=
  let cf := ioutilTempFile env "prodaccess-browser".toList w
  let kf := ioutilTempFile env "prodaccess-browser".toList cf.1
  let w1 := (fileWrite env cf.2 c kf.1).1
  let w2 := (fileWrite env kf.2 k w1).1
  match cf.2, kf.2 with
  | some cp, some kp =>
    let w3 := fileClose kf.2 (fileClose cf.2 w2)
    let fp := env.expandEnv flags.browserCertPath
    let w4 := (osRemove env fp w3).1
    let w5 := (osOpenFile env fp { create := true } 0o600 w4).1
    let ex := cmdRun env
      ["/usr/bin/env".toList, "openssl".toList, "pkcs12".toList, "-export".toList,
        "-password".toList, "pass:".toList, "-in".toList, cp, "-inkey".toList, kp,
        "-out".toList, fp] (some fp) w5
    let w6 :=
      if ex.2.status ≠ .success then
        logPrintf "Error output: %s".toList [ex.2.stderr]
          (logPrintf "Standard output: %s".toList [ex.2.stdout]
            (logPrintf "Failed to emit Browser certificate: %v".toList [] ex.1))
      else ex.1
    let w7 := (osRemove env cp w6).1
    .returned (osRemove env kp w7).1
  | _, _ => .panicked w2


/-- The shape the two PKCS#12 activators share, as section 4.4 of the
specification describes it ("implement once, parameterize twice"), with everything
the two source functions differ in as a parameter: the pattern of the temp file
names, the flag holding the target path, and the label of the log line. -/
def savePkcs12Certificate (env : Env) (pattern target label : GoString) (c k : GoString)
    (w : World) : Outcome :=
  let cf := ioutilTempFile env pattern w
  let kf := ioutilTempFile env pattern cf.1
  let w1 := (fileWrite env cf.2 c kf.1).1
  let w2 := (fileWrite env kf.2 k w1).1
  match cf.2, kf.2 with
  | some cp, some kp =>
    let w3 := fileClose kf.2 (fileClose cf.2 w2)
    let fp := env.expandEnv target
    let w4 := (osRemove env fp w3).1
    let w5 := (osOpenFile env fp { create := true } 0o600 w4).1
    let ex := cmdRun env
      ["/usr/bin/env".toList, "openssl".toList, "pkcs12".toList, "-export".toList,
        "-password".toList, "pass:".toList, "-in".toList, cp, "-inkey".toList, kp,
        "-out".toList, fp] (some fp) w5
    let w6 :=
      if ex.2.status ≠ .success then
        logPrintf "Error output: %s".toList [ex.2.stderr]
          (logPrintf "Standard output: %s".toList [ex.2.stdout]
            (logPrintf ("Failed to emit ".toList ++ label ++ " certificate: %v".toList) [] ex.1))
      else ex.1
    let w7 := (osRemove env cp w6).1
    .returned (osRemove env kp w7).1
  | _, _ => .panicked w2

/-! ## Reading a run -/

/-- The world a call ended in. -/
def Outcome.world : Outcome → World
  | .returned w => w
  | .panicked w => w

/-- Whether the call returned. -/
def Outcome.isReturned : Outcome → Bool
  | .returned _ => true
  | .panicked _ => false

/-- The argument vectors of the external commands run, in order. -/
def execArgs (trace : List Event) : List (List GoString) :=
  trace.filterMap fun e =>
    match e with
    | .exec argv _ => some argv
    | _ => none

/-- The temp files created, in order. -/
def createdTempFiles (trace : List Event) : List Path :=
  trace.filterMap fun e =>
    match e with
    | .tempFile _ _ (some name) => some name
    | _ => none

/-- The data of every write attempted on `name`, in order. -/
def writesTo (name : Path) (trace : List Event) : List GoString :=
  trace.filterMap fun e =>
    match e with
    | .write n data _ => if n = name then some data else none
    | _ => none

/-- The operations other than log lines. -/
def withoutLog (trace : List Event) : List Event :=
  trace.filter fun e =>
    match e with
    | .log _ _ => false
    | _ => true

/-- Group write and world write, the bits 020 and 002 of a mode. -/
def groupWorldWrite (perm : Nat) : Nat :=
  perm &&& 0o022

/-! ## Concrete environments for the examples -/

/-- What `os.ExpandEnv` gives for a path that starts with `$HOME/` and holds no
other `$`, when `HOME=/home/u`; the flag defaults are such paths. Any other string is
returned as it is. -/
def expandHome : GoString → GoString
  | '$' :: 'H' :: 'O' :: 'M' :: 'E' :: '/' :: rest =>
    if rest.contains '$' then '$' :: 'H' :: 'O' :: 'M' :: 'E' :: '/' :: rest
    else "/home/u/".toList ++ rest
  | s => s

/-- A random suffix: `1`, or `2` once a temp file ending in `1` is there. -/
def demoRandom (fs : FS) : GoString :=
  if (fs "/tmp/prodaccess-k8s1".toList).isSome || (fs "/tmp/prodaccess-vmware1".toList).isSome
      || (fs "/tmp/prodaccess-browser1".toList).isSome then "2".toList
  else "1".toList

/-- A tool run that exits with status 1, prints a diagnostic and writes nothing. -/
def toolFails : ExecResult where
  status := .exitError 1
  stdout := []
  stderr := "unable to load certificate".toList
  output := none

/-- An operating system that refuses nothing, with umask 022, every tool but
kubectl on the search path, and tools that fail. -/
def demoEnv : Env where
  expandEnv := expandHome
  fault := fun _ _ => false
  umask := 0o022
  umaskOwner := by decide
  tempDir := "/tmp".toList
  nextRandom := demoRandom
  lookPath := fun program => decide (program ≠ "kubectl".toList)
  run := fun _ _ => toolFails
  kubeConfig := "/home/u/.kube/config".toList
  toolMode := 0o600

/-- The empty filesystem. -/
def emptyFS : FS := fun _ => none

/-- A certificate text. -/
def demoCert : GoString := "ssh-ecdsa-cert-v01 AAAA... user@host".toList

/-- A known-hosts content without the trust line. -/
def demoKnownHosts : GoString := "host.example ssh-ed25519 AAAA\n".toList

/-- A home directory with an old certificate that group and world may write
(mode 0666) and a known-hosts file without the trust line. -/
def demoFS : FS :=
  (emptyFS.set "/home/u/.ssh/id_ecdsa-cert.pub".toList (some ⟨"old certificate".toList, 0o666⟩)).set
    "/home/u/.ssh/known_hosts".toList (some ⟨demoKnownHosts, 0o644⟩)

/-- An operating system that refuses to open the known-hosts file for writing (the
file is read-only) and nothing else. -/
def readOnlyEnv : Env :=
  { demoEnv with
    fault := fun op _ => decide (op = .openFile "/home/u/.ssh/known_hosts".toList) }

/-- An operating system that refuses to remove anything under `/tmp` (files can be
created there but not deleted, as in an append-only directory). -/
def noRemoveEnv : Env :=
  { demoEnv with
    fault := fun op _ =>
      match op with
      | .remove name => "/tmp/".toList.isPrefixOf name
      | _ => false }

/-- Flags that give the two PKCS#12 activators the same target path. -/
def sameTargetFlags : Flags :=
  { defaultFlags with browserCertPath := defaultFlags.vmwareCertPath }

/-- A filesystem with an earlier VMware bundle. -/
def bundleFS : FS :=
  emptyFS.set "/home/u/vmware-user.pfx".toList (some ⟨"earlier bundle".toList, 0o644⟩)

/-- The same operating system with umask 077. -/
def strictEnv : Env :=
  { demoEnv with umask := 0o077, umaskOwner := by decide }

/-- Flags that name one file as the certificate and as the known-hosts file. -/
def aliasFlags : Flags :=
  { defaultFlags with sshKnownHosts := defaultFlags.sshCert }

/-- A kubectl run that exits with status 0 and rewrites its configuration. -/
def kubectlSucceeds : ExecResult where
  status := .success
  stdout := []
  stderr := []
  output := some "users: dhtech".toList

/-- The same operating system with kubectl on the search path, and tools that
succeed. -/
def kubectlEnv : Env :=
  { demoEnv with lookPath := fun _ => true, run := fun _ _ => kubectlSucceeds }

/-- The argument vector of source lines 96-99, for the temp files `cp` and `kp`. -/
def kubectlArgs (cp kp : Path) : List GoString :=
  ["/usr/bin/env".toList, "kubectl".toList, "config".toList, "set-credentials".toList,
    "dhtech".toList, "--embed-certs=true".toList,
    "--client-certificate=".toList ++ cp, "--client-key=".toList ++ kp]

/-! ## Strings: lemmas -/

theorem stringsContains_iff (s sub : GoString) :
    stringsContains s sub = true ↔ sub <:+: s := by
  induction s with
  | nil =>
    simp [stringsContains, List.isPrefixOf_iff_prefix]
  | cons c s ih =>
    simp only [stringsContains, Bool.or_eq_true, ih, List.isPrefixOf_iff_prefix]
    rw [List.infix_cons_iff]

theorem stringsHasSuffix_iff (s suffix : GoString) :
    stringsHasSuffix s suffix = true ↔ suffix <:+ s := by
  unfold stringsHasSuffix
  simp only [Bool.and_eq_true, decide_eq_true_eq, beq_iff_eq]
  constructor
  · rintro ⟨_, h⟩
    exact List.suffix_iff_eq_drop.mpr h.symm
  · intro h
    exact ⟨h.length_le, (List.suffix_iff_eq_drop.mp h).symm⟩

theorem stringsTrimSuffix_append (p suffix : GoString) :
    stringsTrimSuffix (p ++ suffix) suffix = p := by
  have h : stringsHasSuffix (p ++ suffix) suffix = true :=
    (stringsHasSuffix_iff _ _).mpr (List.suffix_append p suffix)
  simp [stringsTrimSuffix, h]

theorem stringsTrimSuffix_of_not_suffix (s suffix : GoString)
    (h : ¬ ∃ p, s = p ++ suffix) : stringsTrimSuffix s suffix = s := by
  have h1 : stringsHasSuffix s suffix = false := by
    rw [Bool.eq_false_iff]
    intro hs
    rcases (stringsHasSuffix_iff _ _).mp hs with ⟨p, hp⟩
    exact h ⟨p, hp.symm⟩
  simp [stringsTrimSuffix, h1]

theorem countOccurrences_of_short (pat : GoString) :
    ∀ s : GoString, s.length < pat.length → countOccurrences pat s = 0 := by
  intro s
  induction s with
  | nil =>
    intro h
    have : ¬ pat <+: [] := fun hp => by
      have := hp.length_le
      simp only [List.length_nil] at this h
      omega
    simp [countOccurrences, List.isPrefixOf_iff_prefix, this]
  | cons c s ih =>
    intro h
    have h1 : ¬ pat <+: c :: s := fun hp => by
      have := hp.length_le
      omega
    have h2 : s.length < pat.length := by
      simp at h
      omega
    simp [countOccurrences, List.isPrefixOf_iff_prefix, h1, ih h2]

theorem countOccurrences_self (pat : GoString) (hne : pat ≠ []) :
    countOccurrences pat pat = 1 := by
  cases pat with
  | nil => exact absurd rfl hne
  | cons c t =>
    have h := countOccurrences_of_short (c :: t) t (by simp)
    simp [countOccurrences, h]

theorem hasBorder_of_straddle (pat a : GoString) (hne : a ≠ [])
    (hp : pat <+: a ++ pat) (hna : ¬ pat <+: a) : hasBorder pat = true := by
  obtain ⟨t, ht⟩ := hp
  rcases List.append_eq_append_iff.mp ht with ⟨a', ha', _⟩ | ⟨b, hb1, hb2⟩
  · exact absurd ⟨a', ha'.symm⟩ hna
  · -- pat = a ++ b and pat = b ++ t
    have hbne : b ≠ [] := by
      rintro rfl
      apply hna
      simp at hb1
      rw [hb1]
    have hlen : pat.length = a.length + b.length := by
      rw [hb1]
      simp
    have halen : 0 < a.length := List.length_pos.mpr hne
    have hblen : 0 < b.length := List.length_pos.mpr hbne
    unfold hasBorder
    rw [List.any_eq_true]
    refine ⟨b.length, List.mem_range.mpr (by omega), ?_⟩
    simp only [Bool.and_eq_true, decide_eq_true_eq, beq_iff_eq]
    refine ⟨hblen, ?_⟩
    have h1 : pat.take b.length = b := by
      rw [hb2]
      simp
    have h2 : pat.drop (pat.length - b.length) = b := by
      have : pat.length - b.length = a.length := by omega
      rw [this, hb1]
      simp
    rw [h1, h2]

theorem countOccurrences_append_self (pat : GoString) (hne : pat ≠ [])
    (hb : hasBorder pat = false) :
    ∀ K : GoString, stringsContains K pat = false → countOccurrences pat (K ++ pat) = 1 := by
  intro K
  induction K with
  | nil =>
    intro _
    simpa using countOccurrences_self pat hne
  | cons c K ih =>
    intro h
    simp only [stringsContains, Bool.or_eq_false_iff] at h
    have hna : ¬ pat <+: c :: K := by
      rw [← List.isPrefixOf_iff_prefix]
      simp [h.1]
    have hnp : ¬ pat <+: (c :: K) ++ pat := fun hp => by
      have := hasBorder_of_straddle pat (c :: K) (by simp) hp hna
      rw [hb] at this
      exact Bool.noConfusion this
    have hnp2 : pat.isPrefixOf (c :: (K ++ pat)) = false := by
      rw [Bool.eq_false_iff]
      intro hp
      exact hnp (List.isPrefixOf_iff_prefix.mp hp)
    simp [countOccurrences, hnp2, ih h.2]

theorem certAuthority_ne_nil : certAuthority ≠ [] := by
  decide!

theorem certAuthority_hasBorder : hasBorder certAuthority = false := by
  decide!

/-! ## Filesystem: how each call changes it -/

@[simp] theorem FS.set_same (fs : FS) (name : Path) (f : Option File) :
    fs.set name f name = f := by
  simp [FS.set]

@[simp] theorem FS.set_other (fs : FS) (name q : Path) (f : Option File) (h : q ≠ name) :
    fs.set name f q = fs q := by
  simp [FS.set, h]

@[simp] theorem emit_fs (w : World) (e : Event) : (w.emit e).fs = w.fs := rfl

@[simp] theorem emit_trace (w : World) (e : Event) : (w.emit e).trace = w.trace ++ [e] := rfl

@[simp] theorem logPrintf_fs (format : GoString) (args : List GoString) (w : World) :
    (logPrintf format args w).fs = w.fs := rfl

@[simp] theorem logPrintf_trace (format : GoString) (args : List GoString) (w : World) :
    (logPrintf format args w).trace = w.trace ++ [.log format args] := rfl

@[simp] theorem fileClose_fs (f : Handle) (w : World) : (fileClose f w).fs = w.fs := by
  cases f <;> rfl

theorem osOpenFile_fs_other (env : Env) (name q : Path) (flag : OpenFlag) (perm : Nat)
    (w : World) (h : q ≠ name) : (osOpenFile env name flag perm w).1.fs q = w.fs q := by
  unfold osOpenFile
  split
  · rfl
  · split <;> split <;> try split
    all_goals simp [h]

theorem osOpenFile_handle (env : Env) (name : Path) (flag : OpenFlag) (perm : Nat)
    (w : World) (n : Path) (h : (osOpenFile env name flag perm w).2 = some n) : n = name := by
  unfold osOpenFile at h
  split at h
  · simp at h
  · split at h <;> split at h <;> try split at h
    all_goals simp at h
    all_goals exact h.symm

theorem fileWrite_fs_other (env : Env) (name q : Path) (data : GoString) (w : World)
    (h : q ≠ name) : (fileWrite env (some name) data w).1.fs q = w.fs q := by
  unfold fileWrite
  simp only
  split
  · rfl
  · split <;> simp [h]

@[simp] theorem fileWrite_nil (env : Env) (data : GoString) (w : World) :
    fileWrite env none data w = (w, false) := rfl

theorem ioutilWriteFile_fs_other (env : Env) (name q : Path) (data : GoString) (perm : Nat)
    (w : World) (h : q ≠ name) : (ioutilWriteFile env name data perm w).1.fs q = w.fs q := by
  unfold ioutilWriteFile
  split
  · next w1 heq =>
    have := osOpenFile_fs_other env name q { create := true, trunc := true } perm w h
    rw [heq] at this
    exact this
  · next w1 n heq =>
    have h1 := osOpenFile_fs_other env name q { create := true, trunc := true } perm w h
    have h2 := osOpenFile_handle env name { create := true, trunc := true } perm w n
      (by rw [heq])
    rw [heq] at h1
    subst h2
    simp only [fileClose_fs]
    rw [fileWrite_fs_other env n q data w1 h, h1]

@[simp] theorem ioutilReadFile_fs (env : Env) (name : Path) (w : World) :
    (ioutilReadFile env name w).1.fs = w.fs := by
  unfold ioutilReadFile
  split
  · rfl
  · split <;> rfl

theorem osRemove_fs_other (env : Env) (name q : Path) (w : World) (h : q ≠ name) :
    (osRemove env name w).1.fs q = w.fs q := by
  unfold osRemove
  split
  · rfl
  · split <;> simp [h]

@[simp] theorem cmdRun_fs_none (env : Env) (argv : List GoString) (w : World) :
    (cmdRun env argv none w).1.fs = w.fs := by
  simp [cmdRun]

theorem cmdRun_fs_other (env : Env) (argv : List GoString) (name q : Path) (w : World)
    (h : q ≠ name) : (cmdRun env argv (some name) w).1.fs q = w.fs q := by
  unfold cmdRun
  simp only [emit_fs]
  cases (toolRun env argv w.fs).output with
  | none => rfl
  | some data =>
    simp only [toolWrite]
    cases hf : w.fs name <;> simp [h]

@[simp] theorem foldr_fileClose_fs (hs : List Handle) (w : World) :
    (hs.foldr fileClose w).fs = w.fs := by
  induction hs with
  | nil => rfl
  | cons f hs ih => simp [ih]

theorem applyUmask_owner (perm umask : Nat) (hperm : perm &&& 0o700 = perm)
    (h : umask &&& 0o700 = 0) : applyUmask perm umask = perm := by
  unfold applyUmask
  have h1 : perm &&& umask = 0 := by
    rw [← hperm, Nat.land_assoc, Nat.land_comm 0o700 umask, h, Nat.and_zero]
  rw [h1, Nat.xor_zero]

/-- The umask clears no bit of the modes 0400 and 0600. -/
theorem Env.applyUmask_400 (env : Env) : applyUmask 0o400 env.umask = 0o400 :=
  applyUmask_owner _ _ (by decide) env.umaskOwner

theorem Env.applyUmask_600 (env : Env) : applyUmask 0o600 env.umask = 0o600 :=
  applyUmask_owner _ _ (by decide) env.umaskOwner

/-- Under every umask a file created with mode 0644 has neither group write nor
world write. -/
theorem groupWorldWrite_applyUmask_644 (umask : Nat) :
    groupWorldWrite (applyUmask 0o644 umask) = 0 := by
  unfold groupWorldWrite applyUmask
  have h : (0o644 : Nat) &&& 0o022 = 0 := by decide
  rw [Nat.and_xor_distrib_right, Nat.land_comm 0o644 umask, Nat.land_assoc, h, Nat.and_zero]
  rfl

/-- A successful `ioutil.WriteFile` leaves exactly `data` in the file; the
permission bits are those of the file that was there, `perm` less the umask for a
new file. -/
theorem ioutilWriteFile_fs_same (env : Env) (name : Path) (data : GoString) (perm : Nat)
    (w : World) (h : (ioutilWriteFile env name data perm w).2 = true) :
    (ioutilWriteFile env name data perm w).1.fs name =
      some ⟨data, match w.fs name with
        | some f => f.perm
        | none => applyUmask perm env.umask⟩ := by
  unfold ioutilWriteFile osOpenFile fileWrite at *
  by_cases h1 : env.fault (.openFile name) w.fs = true
  · simp [h1] at h
  · cases hf : w.fs name with
    | none =>
      simp only [h1, hf] at h ⊢
      by_cases h2 : env.fault (.write name)
          (w.fs.set name (some ⟨[], applyUmask perm env.umask⟩)) = true
      · simp [h2] at h
      · simp [h2]
    | some f =>
      simp only [h1, hf] at h ⊢
      by_cases h2 : env.fault (.write name)
          (w.fs.set name (some { f with content := [] })) = true
      · simp [h2] at h
      · simp [h2]

@[simp] theorem sshWriteCertificate_fs (env : Env) (cp : Path) (c : GoString) (w : World) :
    (sshWriteCertificate env cp c w).fs = (ioutilWriteFile env cp c 0o644 w).1.fs := by
  unfold sshWriteCertificate
  simp only []
  split <;> rfl

/-- What the known-hosts update leaves in the known-hosts file: the trust line is
added at the end when the file was read, does not contain the line, and neither the
open nor the write is refused; in every other case the file is as before. -/
theorem sshUpdateKnownHosts_fs_same (env : Env) (path : Path) (w : World) :
    (sshUpdateKnownHosts env path w).1.fs path =
      match w.fs path with
      | none => none
      | some f =>
        if env.fault (.readFile path) w.fs || stringsContains f.content certAuthority
            || env.fault (.openFile path) w.fs || env.fault (.write path) w.fs then some f
        else some { f with content := f.content ++ certAuthority } := by
  unfold sshUpdateKnownHosts ioutilReadFile osOpenFile fileWrite
  cases hf : w.fs path with
  | none =>
    by_cases h1 : env.fault (.readFile path) w.fs = true <;> simp [h1, hf]
  | some f =>
    by_cases h1 : env.fault (.readFile path) w.fs = true
    · simp [h1, hf]
    · by_cases h2 : stringsContains f.content certAuthority = true
      · simp [h1, h2, hf]
      · by_cases h3 : env.fault (.openFile path) w.fs = true
        · simp [h1, h2, h3, hf]
        · by_cases h4 : env.fault (.write path) w.fs = true
          · simp [h1, h2, h3, h4, hf]
          · simp [h1, h2, h3, h4, hf]

theorem sshUpdateKnownHosts_fs_other (env : Env) (path q : Path) (w : World) (h : q ≠ path) :
    (sshUpdateKnownHosts env path w).1.fs q = w.fs q := by
  unfold sshUpdateKnownHosts ioutilReadFile osOpenFile fileWrite
  cases hf : w.fs path with
  | none =>
    by_cases h1 : env.fault (.readFile path) w.fs = true <;> simp [h1, hf]
  | some f =>
    by_cases h1 : env.fault (.readFile path) w.fs = true
    · simp [h1, hf]
    · by_cases h2 : stringsContains f.content certAuthority = true
      · simp [h1, h2, hf]
      · by_cases h3 : env.fault (.openFile path) w.fs = true
        · simp [h1, h2, h3, hf]
        · by_cases h4 : env.fault (.write path) w.fs = true
          · simp [h1, h2, h3, h4, hf]
          · simp [h1, h2, h3, h4, hf, h]

/-- The filesystem after `sshLoadCertificate` is the one after its first two
steps: `ssh-add` and `Close` change no file. -/
theorem sshLoadCertificate_fs (env : Env) (flags : Flags) (c : GoString) (w : World) :
    (sshLoadCertificate env flags c w).fs =
      (sshUpdateKnownHosts env (env.expandEnv flags.sshKnownHosts)
        (sshWriteCertificate env (env.expandEnv flags.sshCert) c w)).1.fs := by
  simp [sshLoadCertificate]

/-- What `sshLoadCertificate` leaves at a path other than the known-hosts file is
what the write of the certificate left there. -/
theorem sshLoadCertificate_fs_other (env : Env) (flags : Flags) (c : GoString) (w : World)
    (q : Path) (h : q ≠ env.expandEnv flags.sshKnownHosts) :
    (sshLoadCertificate env flags c w).fs q =
      (ioutilWriteFile env (env.expandEnv flags.sshCert) c 0o644 w).1.fs q := by
  rw [sshLoadCertificate_fs, sshUpdateKnownHosts_fs_other _ _ _ _ h, sshWriteCertificate_fs]


/-! ## Traces: what each call records -/

theorem execArgs_append (t1 t2 : List Event) : execArgs (t1 ++ t2) = execArgs t1 ++ execArgs t2 := by
  simp [execArgs]

theorem writesTo_append (name : Path) (t1 t2 : List Event) :
    writesTo name (t1 ++ t2) = writesTo name t1 ++ writesTo name t2 := by
  simp [writesTo]

theorem ioutilWriteFile_execArgs (env : Env) (name : Path) (data : GoString) (perm : Nat)
    (w : World) : execArgs (ioutilWriteFile env name data perm w).1.trace = execArgs w.trace := by
  unfold ioutilWriteFile osOpenFile fileWrite fileClose
  by_cases h1 : env.fault (.openFile name) w.fs = true
  · simp [h1, execArgs]
  · cases hf : w.fs name with
    | none =>
      by_cases h2 : env.fault (.write name)
          (w.fs.set name (some ⟨[], applyUmask perm env.umask⟩)) = true <;>
        simp [h1, h2, hf, execArgs]
    | some f =>
      by_cases h2 : env.fault (.write name)
          (w.fs.set name (some { f with content := [] })) = true <;>
        simp [h1, h2, hf, execArgs]

theorem ioutilWriteFile_writesTo (env : Env) (name q : Path) (data : GoString) (perm : Nat)
    (w : World) (h : name ≠ q) :
    writesTo q (ioutilWriteFile env name data perm w).1.trace = writesTo q w.trace := by
  unfold ioutilWriteFile osOpenFile fileWrite fileClose
  by_cases h1 : env.fault (.openFile name) w.fs = true
  · simp [h1, writesTo]
  · cases hf : w.fs name with
    | none =>
      by_cases h2 : env.fault (.write name)
          (w.fs.set name (some ⟨[], applyUmask perm env.umask⟩)) = true <;>
        simp [h1, h2, hf, writesTo, h]
    | some f =>
      by_cases h2 : env.fault (.write name)
          (w.fs.set name (some { f with content := [] })) = true <;>
        simp [h1, h2, hf, writesTo, h]

theorem sshWriteCertificate_execArgs (env : Env) (cp : Path) (c : GoString) (w : World) :
    execArgs (sshWriteCertificate env cp c w).trace = execArgs w.trace := by
  unfold sshWriteCertificate
  simp only []
  split
  · exact ioutilWriteFile_execArgs ..
  · rw [logPrintf_trace, execArgs_append, ioutilWriteFile_execArgs]
    simp [execArgs]

theorem sshWriteCertificate_writesTo (env : Env) (cp q : Path) (c : GoString) (w : World)
    (h : cp ≠ q) : writesTo q (sshWriteCertificate env cp c w).trace = writesTo q w.trace := by
  unfold sshWriteCertificate
  simp only []
  split
  · exact ioutilWriteFile_writesTo _ _ _ _ _ _ h
  · rw [logPrintf_trace, writesTo_append, ioutilWriteFile_writesTo _ _ _ _ _ _ h]
    simp [writesTo]

theorem sshUpdateKnownHosts_execArgs (env : Env) (path : Path) (w : World) :
    execArgs (sshUpdateKnownHosts env path w).1.trace = execArgs w.trace := by
  unfold sshUpdateKnownHosts ioutilReadFile osOpenFile fileWrite
  cases hf : w.fs path with
  | none =>
    by_cases h1 : env.fault (.readFile path) w.fs = true <;> simp [h1, hf, execArgs]
  | some f =>
    by_cases h1 : env.fault (.readFile path) w.fs = true
    · simp [h1, hf, execArgs]
    · by_cases h2 : stringsContains f.content certAuthority = true
      · simp [h1, h2, hf, execArgs]
      · by_cases h3 : env.fault (.openFile path) w.fs = true
        · simp [h1, h2, h3, hf, execArgs]
        · by_cases h4 : env.fault (.write path) w.fs = true
          · simp [h1, h2, h3, h4, hf, execArgs]
          · simp [h1, h2, h3, h4, hf, execArgs]

/-- No write is attempted on the known-hosts file when it holds the trust line. -/
theorem sshUpdateKnownHosts_writesTo (env : Env) (path : Path) (w : World) (f : File)
    (hf : w.fs path = some f) (hc : stringsContains f.content certAuthority = true) :
    writesTo path (sshUpdateKnownHosts env path w).1.trace = writesTo path w.trace := by
  unfold sshUpdateKnownHosts ioutilReadFile
  by_cases h1 : env.fault (.readFile path) w.fs = true
  · simp [h1, writesTo]
  · simp [h1, hf, hc, writesTo]

theorem foldr_fileClose_trace_execArgs (hs : List Handle) (w : World) :
    execArgs (hs.foldr fileClose w).trace = execArgs w.trace := by
  induction hs with
  | nil => rfl
  | cons f hs ih =>
    cases f with
    | none => simpa [fileClose] using ih
    | some n =>
      simp only [List.foldr_cons, fileClose, emit_trace, execArgs_append, ih]
      simp [execArgs]

theorem foldr_fileClose_trace_writesTo (q : Path) (hs : List Handle) (w : World) :
    writesTo q (hs.foldr fileClose w).trace = writesTo q w.trace := by
  induction hs with
  | nil => rfl
  | cons f hs ih =>
    cases f with
    | none => simpa [fileClose] using ih
    | some n =>
      simp only [List.foldr_cons, fileClose, emit_trace, writesTo_append, ih]
      simp [writesTo]

theorem sshLoadCertificate_execArgs (env : Env) (flags : Flags) (c : GoString) (w : World) :
    execArgs (sshLoadCertificate env flags c w).trace =
      execArgs w.trace ++ [["/usr/bin/env".toList, "ssh-add".toList,
        stringsTrimSuffix (env.expandEnv flags.sshCert) "-cert.pub".toList]] := by
  unfold sshLoadCertificate
  simp only [foldr_fileClose_trace_execArgs, cmdRun, emit_trace, execArgs_append,
    sshUpdateKnownHosts_execArgs, sshWriteCertificate_execArgs]
  simp [execArgs]

/-! ## The SSH certificate activator -/

/-- The known-hosts update changes the permission bits of no file. -/
theorem sshUpdateKnownHosts_perm (env : Env) (path q : Path) (w : World) :
    ((sshUpdateKnownHosts env path w).1.fs q).map File.perm = (w.fs q).map File.perm := by
  by_cases hq : q = path
  · subst hq
    rw [sshUpdateKnownHosts_fs_same]
    cases hf : w.fs q with
    | none => rfl
    | some f =>
      simp only []
      split <;> rfl
  · rw [sshUpdateKnownHosts_fs_other _ _ _ _ hq]

/-- C8 fails as stated: the flags name one file as certificate and as known-hosts
file; the write of the certificate succeeds, the known-hosts update then reads the
certificate, finds no trust line in it and appends the line: after the call the
certificate file holds the certificate followed by `certAuthority`. -/
theorem sshLoadCertificate_content_counterexample :
    aliasFlags.sshKnownHosts = aliasFlags.sshCert ∧
    (ioutilWriteFile demoEnv (demoEnv.expandEnv aliasFlags.sshCert) demoCert 0o644
      ⟨demoFS, []⟩).2 = true ∧
    ((sshLoadCertificate demoEnv aliasFlags demoCert ⟨demoFS, []⟩).fs
      (demoEnv.expandEnv aliasFlags.sshCert)).map File.content
      = some (demoCert ++ certAuthority) ∧
    ((sshLoadCertificate demoEnv aliasFlags demoCert ⟨demoFS, []⟩).fs
      (demoEnv.expandEnv aliasFlags.sshCert)).map File.content ≠ some demoCert := by
  decide!

/-- C8, amended. For every certificate text `c` and every prior state of the
certificate path, after `sshLoadCertificate(c)` whose `ioutil.WriteFile` returned no
error: when the known-hosts flag names another file, the certificate file holds
exactly `c`; in every case it holds `c`, or `c` followed by `certAuthority`, the
latter only when the two flags name one file and `c` does not contain the line. -/
theorem sshLoadCertificate_content (env : Env) (flags : Flags) (c : GoString) (w : World)
    (hwrite : (ioutilWriteFile env (env.expandEnv flags.sshCert) c 0o644 w).2 = true) :
    (env.expandEnv flags.sshCert ≠ env.expandEnv flags.sshKnownHosts →
      ((sshLoadCertificate env flags c w).fs (env.expandEnv flags.sshCert)).map File.content
        = some c) ∧
    (((sshLoadCertificate env flags c w).fs (env.expandEnv flags.sshCert)).map File.content
        = some c ∨
      (env.expandEnv flags.sshCert = env.expandEnv flags.sshKnownHosts ∧
        ¬ certAuthority <:+: c ∧
        ((sshLoadCertificate env flags c w).fs (env.expandEnv flags.sshCert)).map File.content
          = some (c ++ certAuthority))) := by
  have hne : env.expandEnv flags.sshCert ≠ env.expandEnv flags.sshKnownHosts →
      ((sshLoadCertificate env flags c w).fs (env.expandEnv flags.sshCert)).map File.content
        = some c := by
    intro hpaths
    rw [sshLoadCertificate_fs_other _ _ _ _ _ hpaths, ioutilWriteFile_fs_same _ _ _ _ _ hwrite]
    rfl
  refine ⟨hne, ?_⟩
  by_cases hpaths : env.expandEnv flags.sshCert = env.expandEnv flags.sshKnownHosts
  · have hw := ioutilWriteFile_fs_same _ _ _ _ _ hwrite
    rw [← sshWriteCertificate_fs] at hw
    rw [sshLoadCertificate_fs, ← hpaths, sshUpdateKnownHosts_fs_same, hw]
    simp only []
    split
    · exact Or.inl rfl
    · next hcond =>
      right
      simp only [Bool.or_eq_true, not_or, Bool.not_eq_true] at hcond
      refine ⟨trivial, fun hin => ?_, rfl⟩
      have := (stringsContains_iff _ _).mpr hin
      rw [hcond.1.1.2] at this
      exact Bool.noConfusion this
  · exact Or.inl (hne hpaths)

/-- C8 amended, at a concrete input: with the default flags an old certificate is
replaced by the new text. -/
theorem sshLoadCertificate_content_witness :
    ((sshLoadCertificate demoEnv defaultFlags demoCert ⟨demoFS, []⟩).fs
      (demoEnv.expandEnv defaultFlags.sshCert)).map File.content = some demoCert :=
  (sshLoadCertificate_content demoEnv defaultFlags demoCert ⟨demoFS, []⟩ (by decide!)).1
    (by decide!)

/-- C7 fails as stated: the old certificate has mode 0666, the write succeeds, and
the certificate file still has group write and world write afterwards. -/
theorem sshLoadCertificate_perm_counterexample :
    (demoFS (demoEnv.expandEnv defaultFlags.sshCert)).map File.perm = some 0o666 ∧
    (ioutilWriteFile demoEnv (demoEnv.expandEnv defaultFlags.sshCert) demoCert 0o644
      ⟨demoFS, []⟩).2 = true ∧
    ((sshLoadCertificate demoEnv defaultFlags demoCert ⟨demoFS, []⟩).fs
      (demoEnv.expandEnv defaultFlags.sshCert)).map (fun f => groupWorldWrite f.perm)
      = some 0o022 := by
  decide!

/-- C7, amended. After `sshLoadCertificate(c)` with a successful write, a
certificate file that did not exist before the call has the mode 0644 less the bits
that the process umask clears, which under every umask excludes group write and
world write; a file that existed keeps the permission bits it had, whatever they
were. -/
theorem sshLoadCertificate_perm (env : Env) (flags : Flags) (c : GoString) (w : World)
    (hwrite : (ioutilWriteFile env (env.expandEnv flags.sshCert) c 0o644 w).2 = true) :
    (w.fs (env.expandEnv flags.sshCert) = none →
      ((sshLoadCertificate env flags c w).fs (env.expandEnv flags.sshCert)).map File.perm
        = some (applyUmask 0o644 env.umask) ∧
      ((sshLoadCertificate env flags c w).fs (env.expandEnv flags.sshCert)).map
        (fun f => groupWorldWrite f.perm) = some 0) ∧
    (∀ f0 : File, w.fs (env.expandEnv flags.sshCert) = some f0 →
      ((sshLoadCertificate env flags c w).fs (env.expandEnv flags.sshCert)).map File.perm
        = some f0.perm) := by
  have hperm : ((sshLoadCertificate env flags c w).fs (env.expandEnv flags.sshCert)).map
      File.perm = some (match w.fs (env.expandEnv flags.sshCert) with
        | some f => f.perm
        | none => applyUmask 0o644 env.umask) := by
    rw [sshLoadCertificate_fs, sshUpdateKnownHosts_perm, sshWriteCertificate_fs,
      ioutilWriteFile_fs_same _ _ _ _ _ hwrite]
    rfl
  constructor
  · intro h0
    rw [h0] at hperm
    refine ⟨hperm, ?_⟩
    cases hres : (sshLoadCertificate env flags c w).fs (env.expandEnv flags.sshCert) with
    | none =>
      rw [hres] at hperm
      exact Option.noConfusion hperm
    | some f =>
      rw [hres] at hperm
      simp only [Option.map_some', Option.some.injEq] at hperm ⊢
      rw [hperm]
      exact groupWorldWrite_applyUmask_644 env.umask
  · intro f0 h0
    rw [h0] at hperm
    exact hperm

/-- C7 amended, at a concrete input: under umask 077 a certificate file that was
not there is created with mode 0600, without group write or world write. -/
theorem sshLoadCertificate_perm_witness :
    ((sshLoadCertificate strictEnv defaultFlags demoCert ⟨emptyFS, []⟩).fs
      (strictEnv.expandEnv defaultFlags.sshCert)).map File.perm = some 0o600 ∧
    ((sshLoadCertificate strictEnv defaultFlags demoCert ⟨emptyFS, []⟩).fs
      (strictEnv.expandEnv defaultFlags.sshCert)).map (fun f => groupWorldWrite f.perm)
      = some 0 :=
  (sshLoadCertificate_perm strictEnv defaultFlags demoCert ⟨emptyFS, []⟩ (by decide!)).1 rfl

/-- C2 fails as stated: the known-hosts file exists, is read, and does not hold
the trust line, but opening it for appending is refused (a read-only file): the
call logs the error and leaves the file as it was, without the trust line. -/
theorem sshLoadCertificate_knownHosts_counterexample :
    (ioutilReadFile readOnlyEnv (readOnlyEnv.expandEnv defaultFlags.sshKnownHosts)
      ⟨demoFS, []⟩).2 = some demoKnownHosts ∧
    stringsContains demoKnownHosts certAuthority = false ∧
    (sshLoadCertificate readOnlyEnv defaultFlags demoCert ⟨demoFS, []⟩).fs
      (readOnlyEnv.expandEnv defaultFlags.sshKnownHosts) = some ⟨demoKnownHosts, 0o644⟩ ∧
    (sshLoadCertificate readOnlyEnv defaultFlags demoCert ⟨demoFS, []⟩).fs
      (readOnlyEnv.expandEnv defaultFlags.sshKnownHosts)
      ≠ some ⟨demoKnownHosts ++ certAuthority, 0o644⟩ := by
  decide!

/-- C2, amended. Let the known-hosts file (a file other than the certificate file)
exist with content `K`. If `K` does not contain the trust line and the operating
system refuses neither the read, nor the open for appending, nor the write, the
file after `sshLoadCertificate` is `K` followed by exactly the trust line, with the
permission bits it had. If `K` already contains the line, the file is left as it was. -/
theorem sshLoadCertificate_knownHosts (env : Env) (flags : Flags) (c : GoString) (w : World)
    (f : File)
    (hpaths : env.expandEnv flags.sshCert ≠ env.expandEnv flags.sshKnownHosts)
    (hfile : w.fs (env.expandEnv flags.sshKnownHosts) = some f) :
    (¬ certAuthority <:+: f.content →
      (∀ fs, env.fault (.readFile (env.expandEnv flags.sshKnownHosts)) fs = false) →
      (∀ fs, env.fault (.openFile (env.expandEnv flags.sshKnownHosts)) fs = false) →
      (∀ fs, env.fault (.write (env.expandEnv flags.sshKnownHosts)) fs = false) →
      (sshLoadCertificate env flags c w).fs (env.expandEnv flags.sshKnownHosts)
        = some ⟨f.content ++ certAuthority, f.perm⟩) ∧
    (certAuthority <:+: f.content →
      (sshLoadCertificate env flags c w).fs (env.expandEnv flags.sshKnownHosts) = some f) := by
  have hf1 : (sshWriteCertificate env (env.expandEnv flags.sshCert) c w).fs
      (env.expandEnv flags.sshKnownHosts) = some f := by
    rw [sshWriteCertificate_fs, ioutilWriteFile_fs_other _ _ _ _ _ _ (Ne.symm hpaths), hfile]
  rw [sshLoadCertificate_fs, sshUpdateKnownHosts_fs_same, hf1]
  constructor
  · intro hnot hread hopen hwrite
    have hc : stringsContains f.content certAuthority = false := by
      rw [Bool.eq_false_iff]
      exact fun h => hnot ((stringsContains_iff _ _).mp h)
    simp [hread, hopen, hwrite, hc]
  · intro hin
    have hc : stringsContains f.content certAuthority = true := (stringsContains_iff _ _).mpr hin
    simp [hc]

/-- C2 amended, at a concrete input: the trust line is added at the end of a
known-hosts file that lacks it. -/
theorem sshLoadCertificate_knownHosts_witness :
    (sshLoadCertificate demoEnv defaultFlags demoCert ⟨demoFS, []⟩).fs
      (demoEnv.expandEnv defaultFlags.sshKnownHosts)
      = some ⟨demoKnownHosts ++ certAuthority, 0o644⟩ :=
  (sshLoadCertificate_knownHosts demoEnv defaultFlags demoCert ⟨demoFS, []⟩
    ⟨demoKnownHosts, 0o644⟩ (by decide!) (by decide!)).1
    (by decide!) (fun _ => rfl) (fun _ => rfl) (fun _ => rfl)

/-! ## The secret-store token activator -/

/-- One call of `saveVaultToken(t)` whose removal and write are not refused leaves
a token file with content `t` and mode 0400, whatever was there. -/
theorem saveVaultToken_fs (env : Env) (flags : Flags) (t : GoString) (w : World)
    (hremove : ∀ fs, env.fault (.remove (env.expandEnv flags.vaultTokenPath)) fs = false)
    (hopen : ∀ fs, env.fault (.openFile (env.expandEnv flags.vaultTokenPath)) fs = false)
    (hwrite : ∀ fs, env.fault (.write (env.expandEnv flags.vaultTokenPath)) fs = false) :
    (saveVaultToken env flags t w).fs (env.expandEnv flags.vaultTokenPath)
      = some ⟨t, 0o400⟩ := by
  unfold saveVaultToken osRemove ioutilWriteFile osOpenFile fileWrite fileClose
  cases hf : w.fs (env.expandEnv flags.vaultTokenPath) <;>
    simp [hremove, hopen, hwrite, hf, Env.applyUmask_400]

/-- C3. Secret-store token replacement: for all tokens `t1`, `t2` and every prior
state of the token path, `saveVaultToken(t1)` then `saveVaultToken(t2)`, with the
removals and the writes (open and write) not refused, leaves a token file whose
content is exactly `t2` and whose permission is 0400. -/
theorem saveVaultToken_replaces (env : Env) (flags : Flags) (t1 t2 : GoString) (w : World)
    (hremove : ∀ fs, env.fault (.remove (env.expandEnv flags.vaultTokenPath)) fs = false)
    (hopen : ∀ fs, env.fault (.openFile (env.expandEnv flags.vaultTokenPath)) fs = false)
    (hwrite : ∀ fs, env.fault (.write (env.expandEnv flags.vaultTokenPath)) fs = false) :
    (saveVaultToken env flags t2 (saveVaultToken env flags t1 w)).fs
      (env.expandEnv flags.vaultTokenPath) = some ⟨t2, 0o400⟩ :=
  saveVaultToken_fs env flags t2 _ hremove hopen hwrite

/-- C3, at a concrete input: an old token file that everyone may read and write
(mode 0666) is replaced twice. -/
theorem saveVaultToken_replaces_witness :
    (saveVaultToken demoEnv defaultFlags "token-2".toList
      (saveVaultToken demoEnv defaultFlags "token-1".toList
        ⟨emptyFS.set "/home/u/.vault-token".toList (some ⟨"token-0".toList, 0o666⟩), []⟩)).fs
      (demoEnv.expandEnv defaultFlags.vaultTokenPath) = some ⟨"token-2".toList, 0o400⟩ :=
  saveVaultToken_replaces demoEnv defaultFlags "token-1".toList "token-2".toList
    ⟨emptyFS.set "/home/u/.vault-token".toList (some ⟨"token-0".toList, 0o666⟩), []⟩
    (fun _ => rfl) (fun _ => rfl) (fun _ => rfl)

/-! ## Running the known-hosts update twice -/

theorem countOccurrences_of_not_contains (pat : GoString) :
    ∀ s : GoString, stringsContains s pat = false → countOccurrences pat s = 0 := by
  intro s
  induction s with
  | nil =>
    intro h
    simp only [stringsContains] at h
    simp [countOccurrences, h]
  | cons c s ih =>
    intro h
    simp only [stringsContains, Bool.or_eq_false_iff] at h
    simp [countOccurrences, h.1, ih h.2]

theorem stringsContains_append_self (s pat : GoString) :
    stringsContains (s ++ pat) pat = true :=
  (stringsContains_iff _ _).mpr ⟨s, [], by simp⟩

/-- One call of `sshLoadCertificate` leaves the known-hosts file as it was, or, when
the file did not hold the trust line, with the trust line added at its end. -/
theorem sshLoadCertificate_knownHosts_cases (env : Env) (flags : Flags) (c : GoString)
    (w : World) (g : File)
    (hpaths : env.expandEnv flags.sshCert ≠ env.expandEnv flags.sshKnownHosts)
    (hfile : w.fs (env.expandEnv flags.sshKnownHosts) = some g) :
    (sshLoadCertificate env flags c w).fs (env.expandEnv flags.sshKnownHosts) = some g ∨
    (stringsContains g.content certAuthority = false ∧
      (sshLoadCertificate env flags c w).fs (env.expandEnv flags.sshKnownHosts)
        = some ⟨g.content ++ certAuthority, g.perm⟩) := by
  have hf1 : (sshWriteCertificate env (env.expandEnv flags.sshCert) c w).fs
      (env.expandEnv flags.sshKnownHosts) = some g := by
    rw [sshWriteCertificate_fs, ioutilWriteFile_fs_other _ _ _ _ _ _ (Ne.symm hpaths), hfile]
  rw [sshLoadCertificate_fs, sshUpdateKnownHosts_fs_same, hf1]
  simp only []
  split
  · exact Or.inl rfl
  · next hcond =>
    right
    simp only [Bool.or_eq_true, not_or, Bool.not_eq_true] at hcond
    exact ⟨hcond.1.1.2, rfl⟩

/-- A call of `sshLoadCertificate` on a known-hosts file that holds the trust line
attempts no write on that file. -/
theorem sshLoadCertificate_writesTo (env : Env) (flags : Flags) (c : GoString)
    (w : World) (g : File)
    (hpaths : env.expandEnv flags.sshCert ≠ env.expandEnv flags.sshKnownHosts)
    (hfile : w.fs (env.expandEnv flags.sshKnownHosts) = some g)
    (hc : stringsContains g.content certAuthority = true) :
    writesTo (env.expandEnv flags.sshKnownHosts) (sshLoadCertificate env flags c w).trace
      = writesTo (env.expandEnv flags.sshKnownHosts) w.trace := by
  have hf1 : (sshWriteCertificate env (env.expandEnv flags.sshCert) c w).fs
      (env.expandEnv flags.sshKnownHosts) = some g := by
    rw [sshWriteCertificate_fs, ioutilWriteFile_fs_other _ _ _ _ _ _ (Ne.symm hpaths), hfile]
  unfold sshLoadCertificate
  simp only [foldr_fileClose_trace_writesTo, cmdRun, emit_trace, writesTo_append,
    sshUpdateKnownHosts_writesTo _ _ _ g hf1 hc, sshWriteCertificate_writesTo _ _ _ _ _ hpaths]
  simp [writesTo]

/-- C1 fails as stated: the known-hosts file is read and lacks the trust line, but
it cannot be opened for appending (a read-only file); after two runs it still holds
no occurrence of the line, and the second run attempted the append again. -/
theorem sshLoadCertificate_twice_counterexample :
    (ioutilReadFile readOnlyEnv (readOnlyEnv.expandEnv defaultFlags.sshKnownHosts)
      ⟨demoFS, []⟩).2 = some demoKnownHosts ∧
    stringsContains demoKnownHosts certAuthority = false ∧
    ((sshLoadCertificate readOnlyEnv defaultFlags demoCert
      ⟨(sshLoadCertificate readOnlyEnv defaultFlags demoCert ⟨demoFS, []⟩).fs, []⟩).fs
      (readOnlyEnv.expandEnv defaultFlags.sshKnownHosts)).map
        (fun f => countOccurrences certAuthority f.content) = some 0 ∧
    (sshLoadCertificate readOnlyEnv defaultFlags demoCert
      ⟨(sshLoadCertificate readOnlyEnv defaultFlags demoCert ⟨demoFS, []⟩).fs, []⟩).trace.contains
        (.openFile (readOnlyEnv.expandEnv defaultFlags.sshKnownHosts) { append := true } 0o600
          false) = true := by
  decide!

/-- C1, amended. Let the known-hosts file (a file other than the certificate file)
exist with a content `K` that does not contain the trust line. After two runs of
`sshLoadCertificate` the file holds at most one occurrence of the line, whatever
the operating system refused. When the first run's read, open for appending and
write are not refused (all three happen in the filesystem that the first run's
certificate write leaves), then, whatever is refused in the second run, the file
after the two runs is `K` followed by the trust line, which occurs in it exactly
once, and the second run attempts no write on the file. -/
theorem sshLoadCertificate_twice (env : Env) (flags : Flags) (c1 c2 : GoString) (w : World)
    (f : File)
    (hpaths : env.expandEnv flags.sshCert ≠ env.expandEnv flags.sshKnownHosts)
    (hfile : w.fs (env.expandEnv flags.sshKnownHosts) = some f)
    (hnot : ¬ certAuthority <:+: f.content) :
    (∃ g, (sshLoadCertificate env flags c2
        ⟨(sshLoadCertificate env flags c1 w).fs, []⟩).fs (env.expandEnv flags.sshKnownHosts)
          = some g ∧ countOccurrences certAuthority g.content ≤ 1) ∧
    (env.fault (.readFile (env.expandEnv flags.sshKnownHosts))
        (sshWriteCertificate env (env.expandEnv flags.sshCert) c1 w).fs = false →
      env.fault (.openFile (env.expandEnv flags.sshKnownHosts))
        (sshWriteCertificate env (env.expandEnv flags.sshCert) c1 w).fs = false →
      env.fault (.write (env.expandEnv flags.sshKnownHosts))
        (sshWriteCertificate env (env.expandEnv flags.sshCert) c1 w).fs = false →
      (sshLoadCertificate env flags c2
        ⟨(sshLoadCertificate env flags c1 w).fs, []⟩).fs (env.expandEnv flags.sshKnownHosts)
          = some ⟨f.content ++ certAuthority, f.perm⟩ ∧
      countOccurrences certAuthority (f.content ++ certAuthority) = 1 ∧
      writesTo (env.expandEnv flags.sshKnownHosts) (sshLoadCertificate env flags c2
        ⟨(sshLoadCertificate env flags c1 w).fs, []⟩).trace = []) := by
  have hc : stringsContains f.content certAuthority = false := by
    rw [Bool.eq_false_iff]
    exact fun h => hnot ((stringsContains_iff _ _).mp h)
  have hzero := countOccurrences_of_not_contains certAuthority f.content hc
  have hone := countOccurrences_append_self certAuthority certAuthority_ne_nil
    certAuthority_hasBorder f.content hc
  have hin : stringsContains (f.content ++ certAuthority) certAuthority = true :=
    stringsContains_append_self _ _
  constructor
  · rcases sshLoadCertificate_knownHosts_cases env flags c1 w f hpaths hfile with h1 | ⟨_, h1⟩
    · rcases sshLoadCertificate_knownHosts_cases env flags c2
        ⟨(sshLoadCertificate env flags c1 w).fs, []⟩ f hpaths h1 with h2 | ⟨_, h2⟩
      · exact ⟨f, h2, by omega⟩
      · exact ⟨_, h2, by simp only []; omega⟩
    · rcases sshLoadCertificate_knownHosts_cases env flags c2
        ⟨(sshLoadCertificate env flags c1 w).fs, []⟩ _ hpaths h1 with h2 | ⟨h2, _⟩
      · exact ⟨_, h2, by simp only []; omega⟩
      · simp only [hin] at h2
        exact Bool.noConfusion h2
  · intro hread hopen hwrite
    have h1 : (sshLoadCertificate env flags c1 w).fs (env.expandEnv flags.sshKnownHosts)
        = some ⟨f.content ++ certAuthority, f.perm⟩ := by
      have hf1 : (sshWriteCertificate env (env.expandEnv flags.sshCert) c1 w).fs
          (env.expandEnv flags.sshKnownHosts) = some f := by
        rw [sshWriteCertificate_fs, ioutilWriteFile_fs_other _ _ _ _ _ _ (Ne.symm hpaths),
          hfile]
      rw [sshLoadCertificate_fs, sshUpdateKnownHosts_fs_same, hf1]
      simp only [hread, hopen, hwrite, hc, Bool.or_self, Bool.false_eq_true, if_false]
    refine ⟨?_, hone, ?_⟩
    · rcases sshLoadCertificate_knownHosts_cases env flags c2
        ⟨(sshLoadCertificate env flags c1 w).fs, []⟩ _ hpaths h1 with h2 | ⟨h2, _⟩
      · exact h2
      · simp only [hin] at h2
        exact Bool.noConfusion h2
    · rw [sshLoadCertificate_writesTo env flags c2 ⟨(sshLoadCertificate env flags c1 w).fs, []⟩
        _ hpaths h1 hin]
      rfl

/-- C1 amended, at a concrete input: two runs on a known-hosts file that lacks the
trust line. -/
theorem sshLoadCertificate_twice_witness :
    (∃ g, (sshLoadCertificate demoEnv defaultFlags demoCert
        ⟨(sshLoadCertificate demoEnv defaultFlags demoCert ⟨demoFS, []⟩).fs, []⟩).fs
          (demoEnv.expandEnv defaultFlags.sshKnownHosts)
          = some g ∧ countOccurrences certAuthority g.content ≤ 1) ∧
    (sshLoadCertificate demoEnv defaultFlags demoCert
        ⟨(sshLoadCertificate demoEnv defaultFlags demoCert ⟨demoFS, []⟩).fs, []⟩).fs
          (demoEnv.expandEnv defaultFlags.sshKnownHosts)
          = some ⟨demoKnownHosts ++ certAuthority, 0o644⟩ ∧
      countOccurrences certAuthority (demoKnownHosts ++ certAuthority) = 1 ∧
      writesTo (demoEnv.expandEnv defaultFlags.sshKnownHosts)
        (sshLoadCertificate demoEnv defaultFlags demoCert
          ⟨(sshLoadCertificate demoEnv defaultFlags demoCert ⟨demoFS, []⟩).fs, []⟩).trace = [] :=
  have h := sshLoadCertificate_twice demoEnv defaultFlags demoCert demoCert ⟨demoFS, []⟩
    ⟨demoKnownHosts, 0o644⟩ (by decide!) (by decide!) (by decide!)
  ⟨h.1, h.2 rfl rfl rfl⟩

/-! ## The private-key path given to ssh-add -/

/-- C10. The private-key path is the certificate path with the suffix `-cert.pub`
stripped: `p ++ "-cert.pub"` is mapped to `p`, a path that does not end in
`-cert.pub` is unchanged; and every call of `sshLoadCertificate`, whatever the
operating system refused on the way, runs exactly one external command,
`/usr/bin/env ssh-add` with that one path as its argument. -/
theorem sshLoadCertificate_sshAdd :
    (∀ p : GoString, stringsTrimSuffix (p ++ "-cert.pub".toList) "-cert.pub".toList = p) ∧
    (∀ cp : GoString, ¬ "-cert.pub".toList <:+ cp →
      stringsTrimSuffix cp "-cert.pub".toList = cp) ∧
    (∀ (env : Env) (flags : Flags) (c : GoString) (fs : FS),
      execArgs (sshLoadCertificate env flags c ⟨fs, []⟩).trace =
        [["/usr/bin/env".toList, "ssh-add".toList,
          stringsTrimSuffix (env.expandEnv flags.sshCert) "-cert.pub".toList]]) := by
  refine ⟨fun p => stringsTrimSuffix_append p _, fun cp h => ?_, fun env flags c fs => ?_⟩
  · exact stringsTrimSuffix_of_not_suffix cp _ (fun ⟨p, hp⟩ => h ⟨p, hp.symm⟩)
  · rw [sshLoadCertificate_execArgs]
    rfl

/-- C10, at a concrete input: a certificate path without the suffix is passed on
unchanged. -/
theorem sshLoadCertificate_sshAdd_witness :
    stringsTrimSuffix "/home/u/.ssh/id_ecdsa.pub".toList "-cert.pub".toList
      = "/home/u/.ssh/id_ecdsa.pub".toList :=
  sshLoadCertificate_sshAdd.2.1 "/home/u/.ssh/id_ecdsa.pub".toList (by decide)

/-! ## Temp files: creation and removal -/

theorem createdTempFiles_append (t1 t2 : List Event) :
    createdTempFiles (t1 ++ t2) = createdTempFiles t1 ++ createdTempFiles t2 := by
  simp [createdTempFiles]

theorem osOpenFile_trace (env : Env) (name : Path) (flag : OpenFlag) (perm : Nat) (w : World) :
    (osOpenFile env name flag perm w).1.trace =
      w.trace ++ [.openFile name flag perm (osOpenFile env name flag perm w).2.isSome] := by
  unfold osOpenFile
  split
  · rfl
  · split <;> split <;> try split
    all_goals rfl

theorem fileWrite_trace (env : Env) (name : Path) (data : GoString) (w : World) :
    (fileWrite env (some name) data w).1.trace =
      w.trace ++ [.write name data (fileWrite env (some name) data w).2] := by
  unfold fileWrite
  simp only
  split
  · rfl
  · split <;> rfl

theorem osRemove_trace (env : Env) (name : Path) (w : World) :
    (osRemove env name w).1.trace = w.trace ++ [.remove name (osRemove env name w).2] := by
  unfold osRemove
  split
  · rfl
  · split <;> rfl

theorem ioutilTempFile_trace (env : Env) (pattern : GoString) (w : World) :
    (ioutilTempFile env pattern w).1.trace =
      w.trace ++ [.tempFile [] pattern (ioutilTempFile env pattern w).2] := by
  unfold ioutilTempFile
  split
  · rfl
  · split <;> rfl

theorem cmdRun_trace (env : Env) (argv : List GoString) (out : Option Path) (w : World) :
    (cmdRun env argv out w).1.trace = w.trace ++ [.exec argv (toolRun env argv w.fs).status] :=
  rfl

theorem fileClose_trace (name : Path) (w : World) :
    (fileClose (some name) w).trace = w.trace ++ [.close name] := rfl

/-- A temp file that `ioutil.TempFile` created was not there before, and is there,
empty and with mode 0600, afterwards. -/
theorem ioutilTempFile_fresh (env : Env) (pattern : GoString) (w : World) (name : Path)
    (h : (ioutilTempFile env pattern w).2 = some name) :
    name = tempName env pattern w.fs ∧ w.fs name = none ∧
      (ioutilTempFile env pattern w).1.fs = w.fs.set name (some ⟨[], 0o600⟩) := by
  unfold ioutilTempFile at h ⊢
  split at h
  · simp at h
  · next hfault =>
    cases hf : w.fs (tempName env pattern w.fs) with
    | some f => simp [hf] at h
    | none =>
      simp only [hf, Option.some.injEq] at h
      subst h
      simp [hfault, hf, Env.applyUmask_600]

/-- A removal that is not refused leaves nothing at the path. -/
theorem osRemove_fs_same (env : Env) (name : Path) (w : World)
    (h : env.fault (.remove name) w.fs = false) : (osRemove env name w).1.fs name = none := by
  unfold osRemove
  cases hf : w.fs name <;> simp [h, hf]

/-- A removal leaves an absent path absent. -/
theorem osRemove_fs_none (env : Env) (name q : Path) (w : World) (h : w.fs q = none) :
    (osRemove env name w).1.fs q = none := by
  unfold osRemove
  split
  · exact h
  · split
    · by_cases hq : q = name
      · simp [hq]
      · simp [hq, h]
    · exact h

/-- After the two removals that end an activator, each temp file whose removal is
not refused is gone. -/
theorem osRemove_both (env : Env) (cp kp : Path) (w : World) :
    ((∀ fs, env.fault (.remove cp) fs = false) →
      (osRemove env kp (osRemove env cp w).1).1.fs cp = none) ∧
    ((∀ fs, env.fault (.remove kp) fs = false) →
      (osRemove env kp (osRemove env cp w).1).1.fs kp = none) :=
  ⟨fun h => osRemove_fs_none env kp cp _ (osRemove_fs_same env cp w (h _)),
    fun h => osRemove_fs_same env kp _ (h _)⟩

/-- The trace projections of a returned `savePkcs12Certificate`, and its last two
steps. -/
theorem savePkcs12Certificate_returned (env : Env) (pattern target label c k : GoString)
    (w w1 : World) (h : savePkcs12Certificate env pattern target label c k w = .returned w1) :
    ∃ (cp kp : Path) (w6 : World),
      (ioutilTempFile env pattern w).2 = some cp ∧
      (ioutilTempFile env pattern (ioutilTempFile env pattern w).1).2 = some kp ∧
      w1 = (osRemove env kp (osRemove env cp w6).1).1 ∧
      createdTempFiles w1.trace = createdTempFiles w.trace ++ [cp, kp] := by
  unfold savePkcs12Certificate at h
  simp only [] at h
  split at h
  · next cp kp hcf hkf =>
    simp only [hcf, hkf, Outcome.returned.injEq] at h
    refine ⟨cp, kp, _, hcf, hkf, h.symm, ?_⟩
    rw [← h]
    simp only [osRemove_trace, createdTempFiles_append]
    split <;>
    · simp only [logPrintf_trace, cmdRun_trace, osOpenFile_trace, osRemove_trace,
        fileClose_trace, fileWrite_trace, ioutilTempFile_trace, hcf, hkf,
        createdTempFiles_append]
      simp [createdTempFiles]
  · exact Outcome.noConfusion h

theorem saveVmwareCertificate_eq (env : Env) (flags : Flags) (c k : GoString) (w : World) :
    saveVmwareCertificate env flags c k w =
      savePkcs12Certificate env "prodaccess-vmware".toList flags.vmwareCertPath "VMware".toList
        c k w := rfl

theorem saveBrowserCertificate_eq (env : Env) (flags : Flags) (c k : GoString) (w : World) :
    saveBrowserCertificate env flags c k w =
      savePkcs12Certificate env "prodaccess-browser".toList flags.browserCertPath
        "Browser".toList c k w := rfl

theorem saveKubernetesCertificate_returned (env : Env) (c k : GoString)
    (w w1 : World) (h : saveKubernetesCertificate env c k w = .returned w1) :
    ∃ (cp kp : Path) (w6 : World),
      (ioutilTempFile env "prodaccess-k8s".toList w).2 = some cp ∧
      (ioutilTempFile env "prodaccess-k8s".toList
        (ioutilTempFile env "prodaccess-k8s".toList w).1).2 = some kp ∧
      w1 = (osRemove env kp (osRemove env cp w6).1).1 ∧
      createdTempFiles w1.trace = createdTempFiles w.trace ++ [cp, kp] := by
  unfold saveKubernetesCertificate at h
  simp only [] at h
  split at h
  · next cp kp hcf hkf =>
    simp only [hcf, hkf, Outcome.returned.injEq] at h
    refine ⟨cp, kp, _, hcf, hkf, h.symm, ?_⟩
    rw [← h]
    simp only [cmdRun_trace, osRemove_trace, fileClose_trace,
      fileWrite_trace, ioutilTempFile_trace, hcf, hkf, createdTempFiles_append]
    simp [createdTempFiles]
  · exact Outcome.noConfusion h

theorem cmdRun_fs_of_no_output (env : Env) (argv : List GoString) (out : Option Path)
    (w : World) (h : (toolRun env argv w.fs).output = none) :
    (cmdRun env argv out w).1.fs = w.fs := by
  unfold cmdRun
  cases out <;> simp [h]

/-- A tool that never writes does not write when run through `/usr/bin/env`. -/
theorem toolRun_output (env : Env) (argv : List GoString) (fs : FS)
    (h : ∀ argv1 fs1, (env.run argv1 fs1).output = none) :
    (toolRun env argv fs).output = none := by
  unfold toolRun
  split
  · split
    · exact h _ _
    · rfl
  · exact h _ _

/-- A program that is not on the search path is not run. -/
theorem toolRun_notFound (env : Env) (e program : GoString) (operands : List GoString)
    (fs : FS) (h : env.lookPath program = false) :
    toolRun env (e :: program :: operands) fs = notFound := by
  simp [toolRun, h]

theorem osOpenFile_create_fs (env : Env) (name : Path) (perm : Nat) (w : World)
    (hfault : env.fault (.openFile name) w.fs = false) (hnone : w.fs name = none) :
    (osOpenFile env name { create := true } perm w).1.fs name
      = some ⟨[], applyUmask perm env.umask⟩ := by
  unfold osOpenFile
  simp [hfault, hnone]

theorem Outcome.eq_returned (o : Outcome) (h : o.isReturned = true) :
    o = .returned o.world := by
  cases o with
  | returned w => rfl
  | panicked w => exact Bool.noConfusion h

/-! ## The certificate activators -/

/-- C4 fails as stated: the operating system refuses to remove files under `/tmp`;
`saveVmwareCertificate` ignores the error and returns, and the temp file with the
private key is still there. -/
theorem tempFiles_removed_counterexample :
    (saveVmwareCertificate noRemoveEnv defaultFlags "CERT".toList "KEY".toList
      ⟨emptyFS, []⟩).isReturned = true ∧
    createdTempFiles (saveVmwareCertificate noRemoveEnv defaultFlags "CERT".toList "KEY".toList
      ⟨emptyFS, []⟩).world.trace
      = ["/tmp/prodaccess-vmware1".toList, "/tmp/prodaccess-vmware2".toList] ∧
    (saveVmwareCertificate noRemoveEnv defaultFlags "CERT".toList "KEY".toList
      ⟨emptyFS, []⟩).world.fs "/tmp/prodaccess-vmware2".toList
      = some ⟨"KEY".toList, 0o600⟩ := by
  decide!

/-- C4, amended. For every (cert, key) pair and every outcome of the external tool,
when `saveVmwareCertificate`, `saveBrowserCertificate` or
`saveKubernetesCertificate` returns it has created two temp files, and each of them
whose removal the operating system does not refuse is gone (a failing `os.Remove`
is ignored). -/
theorem tempFiles_removed (env : Env) (flags : Flags) (c k : GoString) (fs : FS) (w1 : World) :
    (saveVmwareCertificate env flags c k ⟨fs, []⟩ = .returned w1 ∨
      saveBrowserCertificate env flags c k ⟨fs, []⟩ = .returned w1 ∨
      saveKubernetesCertificate env c k ⟨fs, []⟩ = .returned w1) →
    (createdTempFiles w1.trace).length = 2 ∧
    ∀ p ∈ createdTempFiles w1.trace,
      (∀ fs1, env.fault (.remove p) fs1 = false) → w1.fs p = none := by
  intro h
  have key : ∃ (cp kp : Path) (w6 : World),
      w1 = (osRemove env kp (osRemove env cp w6).1).1 ∧
      createdTempFiles w1.trace = [cp, kp] := by
    rcases h with h | h | h
    · rw [saveVmwareCertificate_eq] at h
      obtain ⟨cp, kp, w6, _, _, h1, h2⟩ := savePkcs12Certificate_returned _ _ _ _ _ _ _ _ h
      exact ⟨cp, kp, w6, h1, by simpa [createdTempFiles] using h2⟩
    · rw [saveBrowserCertificate_eq] at h
      obtain ⟨cp, kp, w6, _, _, h1, h2⟩ := savePkcs12Certificate_returned _ _ _ _ _ _ _ _ h
      exact ⟨cp, kp, w6, h1, by simpa [createdTempFiles] using h2⟩
    · obtain ⟨cp, kp, w6, _, _, h1, h2⟩ := saveKubernetesCertificate_returned _ _ _ _ _ h
      exact ⟨cp, kp, w6, h1, by simpa [createdTempFiles] using h2⟩
  obtain ⟨cp, kp, w6, h1, h2⟩ := key
  rw [h2]
  refine ⟨rfl, ?_⟩
  intro p hp hrm
  simp only [List.mem_cons, List.mem_singleton, List.not_mem_nil, or_false] at hp
  rcases hp with rfl | rfl
  · rw [h1]
    exact (osRemove_both env p kp w6).1 hrm
  · rw [h1]
    exact (osRemove_both env cp p w6).2 hrm

/-- C4 amended, at a concrete input: the tool exits with status 1, and both temp
files of `saveVmwareCertificate` are gone afterwards. -/
theorem tempFiles_removed_witness :
    (createdTempFiles (saveVmwareCertificate demoEnv defaultFlags "CERT".toList "KEY".toList
      ⟨emptyFS, []⟩).world.trace).length = 2 ∧
    (saveVmwareCertificate demoEnv defaultFlags "CERT".toList "KEY".toList
      ⟨emptyFS, []⟩).world.fs "/tmp/prodaccess-vmware1".toList = none ∧
    (saveVmwareCertificate demoEnv defaultFlags "CERT".toList "KEY".toList
      ⟨emptyFS, []⟩).world.fs "/tmp/prodaccess-vmware2".toList = none :=
  have h := tempFiles_removed demoEnv defaultFlags "CERT".toList "KEY".toList emptyFS
    (saveVmwareCertificate demoEnv defaultFlags "CERT".toList "KEY".toList ⟨emptyFS, []⟩).world
    (Or.inl (Outcome.eq_returned _ (by decide!)))
  ⟨h.1, h.2 _ (by decide!) (fun _ => rfl), h.2 _ (by decide!) (fun _ => rfl)⟩

/-- What a returned `savePkcs12Certificate` leaves at the target path when the tool
writes nothing: the empty file created with mode 0600 after the removal. -/
theorem savePkcs12Certificate_target (env : Env) (pattern target label c k : GoString)
    (w w1 : World) (h : savePkcs12Certificate env pattern target label c k w = .returned w1)
    (hout : ∀ argv fs, (env.run argv fs).output = none)
    (hremove : ∀ fs, env.fault (.remove (env.expandEnv target)) fs = false)
    (hopen : ∀ fs, env.fault (.openFile (env.expandEnv target)) fs = false)
    (htemp : ∀ fs, tempName env pattern fs ≠ env.expandEnv target) :
    w1.fs (env.expandEnv target) = some ⟨[], 0o600⟩ := by
  unfold savePkcs12Certificate at h
  simp only [] at h
  split at h
  · next cp kp hcf hkf =>
    simp only [hcf, hkf, Outcome.returned.injEq] at h
    have hcp : env.expandEnv target ≠ cp := by
      rw [(ioutilTempFile_fresh _ _ _ _ hcf).1]
      exact fun e => htemp _ e.symm
    have hkp : env.expandEnv target ≠ kp := by
      rw [(ioutilTempFile_fresh _ _ _ _ hkf).1]
      exact fun e => htemp _ e.symm
    rw [← h, osRemove_fs_other _ _ _ _ hkp, osRemove_fs_other _ _ _ _ hcp]
    have hlog : ∀ (b : Prop) [Decidable b] (wa wb : World), wa.fs = wb.fs →
        (if b then wa else wb).fs = wb.fs := by
      intro b _ wa wb hab
      split
      · exact hab
      · rfl
    rw [hlog _ _ _ (by simp), cmdRun_fs_of_no_output _ _ _ _ (toolRun_output _ _ _ hout),
      osOpenFile_create_fs _ _ _ _ (hopen _) (osRemove_fs_same _ _ _ (hremove _)),
      Env.applyUmask_600]
  · exact Outcome.noConfusion h

/-- C5 fails as stated: an earlier bundle is at the target path, the export tool
exits with status 1 and writes nothing; after `saveVmwareCertificate` returns the
target is neither absent nor the earlier bundle, but an empty file of mode 0600. -/
theorem pkcs12_target_counterexample :
    (∀ argv fs, (demoEnv.run argv fs).status = .exitError 1 ∧
      (demoEnv.run argv fs).output = none) ∧
    bundleFS (demoEnv.expandEnv defaultFlags.vmwareCertPath)
      = some ⟨"earlier bundle".toList, 0o644⟩ ∧
    (saveVmwareCertificate demoEnv defaultFlags "CERT".toList "KEY".toList
      ⟨bundleFS, []⟩).isReturned = true ∧
    (saveVmwareCertificate demoEnv defaultFlags "CERT".toList "KEY".toList
      ⟨bundleFS, []⟩).world.fs (demoEnv.expandEnv defaultFlags.vmwareCertPath)
      = some ⟨[], 0o600⟩ :=
  ⟨fun _ _ => ⟨rfl, rfl⟩, by decide!, by decide!, by decide!⟩

/-- C5, amended. For every (cert, key) pair and every prior state of the target
bundle path, when the export tool writes nothing (whatever its exit status), and
the removal and the creation of the target are not refused, after
`saveVmwareCertificate` (likewise `saveBrowserCertificate`) returns the target path
(a path that is none of the temp files) holds an empty file of mode 0600: what was
there before is removed. -/
theorem pkcs12_target (env : Env) (flags : Flags) (c k : GoString) (w w1 : World)
    (hout : ∀ argv fs, (env.run argv fs).output = none) :
    (saveVmwareCertificate env flags c k w = .returned w1 →
      (∀ fs, env.fault (.remove (env.expandEnv flags.vmwareCertPath)) fs = false) →
      (∀ fs, env.fault (.openFile (env.expandEnv flags.vmwareCertPath)) fs = false) →
      (∀ fs, tempName env "prodaccess-vmware".toList fs ≠ env.expandEnv flags.vmwareCertPath) →
      w1.fs (env.expandEnv flags.vmwareCertPath) = some ⟨[], 0o600⟩) ∧
    (saveBrowserCertificate env flags c k w = .returned w1 →
      (∀ fs, env.fault (.remove (env.expandEnv flags.browserCertPath)) fs = false) →
      (∀ fs, env.fault (.openFile (env.expandEnv flags.browserCertPath)) fs = false) →
      (∀ fs, tempName env "prodaccess-browser".toList fs
        ≠ env.expandEnv flags.browserCertPath) →
      w1.fs (env.expandEnv flags.browserCertPath) = some ⟨[], 0o600⟩) := by
  constructor
  · intro h hremove hopen htemp
    rw [saveVmwareCertificate_eq] at h
    exact savePkcs12Certificate_target _ _ _ _ _ _ _ _ h hout hremove hopen htemp
  · intro h hremove hopen htemp
    rw [saveBrowserCertificate_eq] at h
    exact savePkcs12Certificate_target _ _ _ _ _ _ _ _ h hout hremove hopen htemp

/-- Every temp name of `demoEnv` ends in `1` or `2`. -/
theorem demoEnv_tempName (pattern : GoString) (fs : FS) :
    tempName demoEnv pattern fs = "/tmp/".toList ++ pattern ++ "1".toList ∨
    tempName demoEnv pattern fs = "/tmp/".toList ++ pattern ++ "2".toList := by
  unfold tempName demoEnv demoRandom
  simp only []
  split
  · right
    simp
  · left
    simp

/-- C5 amended, at a concrete input: the tool fails without writing and the earlier
bundle is replaced by an empty file of mode 0600. -/
theorem pkcs12_target_witness :
    (saveVmwareCertificate demoEnv defaultFlags "CERT".toList "KEY".toList
      ⟨bundleFS, []⟩).world.fs (demoEnv.expandEnv defaultFlags.vmwareCertPath)
      = some ⟨[], 0o600⟩ :=
  (pkcs12_target demoEnv defaultFlags "CERT".toList "KEY".toList ⟨bundleFS, []⟩
    (saveVmwareCertificate demoEnv defaultFlags "CERT".toList "KEY".toList ⟨bundleFS, []⟩).world
    (fun _ _ => rfl)).1 (Outcome.eq_returned _ (by decide!)) (fun _ => rfl) (fun _ => rfl)
    (fun fs h => by
      have hlast : ∀ l : GoString, l = demoEnv.expandEnv defaultFlags.vmwareCertPath →
          l.getLast? = some 'x' := by
        intro l hl
        rw [hl]
        decide!
      have h1 := hlast _ h
      rcases demoEnv_tempName "prodaccess-vmware".toList fs with e | e <;>
        rw [e] at h1 <;> exact absurd h1 (by decide!))

/-- Without kubectl on the search path, a returned `saveKubernetesCertificate` has
run one command, `kubectlArgs` on its two temp files, through `/usr/bin/env`, which
found no kubectl. -/
theorem saveKubernetesCertificate_exec (env : Env) (c k : GoString) (w w1 : World)
    (hno : env.lookPath "kubectl".toList = false)
    (h : saveKubernetesCertificate env c k w = .returned w1) :
    ∃ (cp kp : Path),
      createdTempFiles w1.trace = createdTempFiles w.trace ++ [cp, kp] ∧
      execArgs w1.trace = execArgs w.trace ++ [kubectlArgs cp kp] ∧
      Event.exec (kubectlArgs cp kp) (.exitError 127) ∈ w1.trace := by
  unfold saveKubernetesCertificate at h
  dsimp only at h
  split at h
  · next cp kp hcf hkf =>
    simp only [hcf, hkf, Outcome.returned.injEq] at h
    refine ⟨cp, kp, ?_, ?_, ?_⟩
    · rw [← h]
      simp only [cmdRun_trace, osRemove_trace, fileClose_trace,
        fileWrite_trace, ioutilTempFile_trace, hcf, hkf, createdTempFiles_append]
      simp [createdTempFiles]
    · rw [← h]
      simp only [cmdRun_trace, osRemove_trace, fileClose_trace,
        fileWrite_trace, ioutilTempFile_trace, hcf, hkf, execArgs_append]
      simp [execArgs, kubectlArgs]
    · rw [← h]
      simp only [cmdRun_trace, osRemove_trace, List.mem_append, List.mem_singleton,
        toolRun_notFound _ _ _ _ _ hno]
      exact Or.inl (Or.inl (Or.inr rfl))
  · exact Outcome.noConfusion h

/-- Without kubectl on the search path, a returned `saveKubernetesCertificate`
whose removals are not refused leaves every path as it found it. -/
theorem saveKubernetesCertificate_fs (env : Env) (c k : GoString) (w w1 : World)
    (hno : env.lookPath "kubectl".toList = false)
    (h : saveKubernetesCertificate env c k w = .returned w1)
    (hremove : ∀ p fs, env.fault (.remove p) fs = false) : w1.fs = w.fs := by
  unfold saveKubernetesCertificate at h
  simp only [] at h
  split at h
  · next cp kp hcf hkf =>
    simp only [hcf, hkf, Outcome.returned.injEq] at h
    obtain ⟨_, hcp, hfs1⟩ := ioutilTempFile_fresh _ _ _ _ hcf
    obtain ⟨_, hkp, hfs2⟩ := ioutilTempFile_fresh _ _ _ _ hkf
    funext q
    rw [← h]
    by_cases hq1 : q = cp
    · subst hq1
      rw [(osRemove_both env q kp _).1 (hremove q), hcp]
    · by_cases hq2 : q = kp
      · subst hq2
        rw [(osRemove_both env cp q _).2 (hremove q)]
        rw [hfs1, FS.set_other _ _ _ _ hq1] at hkp
        exact hkp.symm
      · rw [osRemove_fs_other _ _ _ _ hq2, osRemove_fs_other _ _ _ _ hq1,
          cmdRun_fs_of_no_output _ _ _ _ (by rw [toolRun_notFound _ _ _ _ _ hno]; rfl),
          fileClose_fs, fileClose_fs, fileWrite_fs_other _ _ _ _ _ hq2,
          fileWrite_fs_other _ _ _ _ _ hq1, hfs2, FS.set_other _ _ _ _ hq2, hfs1,
          FS.set_other _ _ _ _ hq1]
  · exact Outcome.noConfusion h

/-- With kubectl on the search path the call does change the filesystem: kubectl
rewrites its configuration file. -/
theorem saveKubernetesCertificate_kubectl_present :
    hasKubectl kubectlEnv = true ∧
    (saveKubernetesCertificate kubectlEnv "CERT".toList "KEY".toList
      ⟨emptyFS, []⟩).world.fs kubectlEnv.kubeConfig
      = some ⟨"users: dhtech".toList, 0o600⟩ ∧
    emptyFS kubectlEnv.kubeConfig = none := by
  decide!

/-- C6 fails as stated: kubectl is not on the search path, yet
`saveKubernetesCertificate`, which does not call `hasKubectl`, creates its two temp
files and runs the command. -/
theorem saveKubernetesCertificate_counterexample :
    hasKubectl demoEnv = false ∧
    (saveKubernetesCertificate demoEnv "CERT".toList "KEY".toList ⟨emptyFS, []⟩).isReturned
      = true ∧
    createdTempFiles (saveKubernetesCertificate demoEnv "CERT".toList "KEY".toList
      ⟨emptyFS, []⟩).world.trace
      = ["/tmp/prodaccess-k8s1".toList, "/tmp/prodaccess-k8s2".toList] ∧
    (execArgs (saveKubernetesCertificate demoEnv "CERT".toList "KEY".toList
      ⟨emptyFS, []⟩).world.trace).length = 1 := by
  decide!

/-- C6, amended. `saveKubernetesCertificate` does not consult `hasKubectl` (skipping
the activation is left to its caller). When kubectl is not discoverable and the call
returns, it has created two temp files and has run one command,
`/usr/bin/env kubectl config set-credentials ...` on these two files, which exits with
status 127 as no kubectl is found; when moreover no removal is refused, the
filesystem after the call equals the filesystem before it. -/
theorem saveKubernetesCertificate_noKubectl (env : Env) (c k : GoString) (fs : FS)
    (w1 : World) (hno : hasKubectl env = false)
    (h : saveKubernetesCertificate env c k ⟨fs, []⟩ = .returned w1) :
    (∃ cp kp : Path, createdTempFiles w1.trace = [cp, kp] ∧
      execArgs w1.trace = [kubectlArgs cp kp] ∧
      Event.exec (kubectlArgs cp kp) (.exitError 127) ∈ w1.trace) ∧
    ((∀ p fs1, env.fault (.remove p) fs1 = false) → w1.fs = fs) := by
  have hlook : env.lookPath "kubectl".toList = false := by
    cases hl : env.lookPath "kubectl".toList with
    | false => rfl
    | true =>
      have hyes : hasKubectl env = true := by
        unfold hasKubectl
        rw [hl]
        rfl
      rw [hyes] at hno
      exact Bool.noConfusion hno
  constructor
  · obtain ⟨cp, kp, h1, h2, h3⟩ := saveKubernetesCertificate_exec _ _ _ _ _ hlook h
    exact ⟨cp, kp, by simpa [createdTempFiles] using h1, by simpa [execArgs] using h2, h3⟩
  · intro hremove
    exact saveKubernetesCertificate_fs env c k ⟨fs, []⟩ w1 hlook h hremove

/-- C6 amended, at a concrete input without kubectl. -/
theorem saveKubernetesCertificate_noKubectl_witness :
    (∃ cp kp : Path,
      createdTempFiles (saveKubernetesCertificate demoEnv "CERT".toList "KEY".toList
        ⟨bundleFS, []⟩).world.trace = [cp, kp] ∧
      execArgs (saveKubernetesCertificate demoEnv "CERT".toList "KEY".toList
        ⟨bundleFS, []⟩).world.trace = [kubectlArgs cp kp] ∧
      Event.exec (kubectlArgs cp kp) (.exitError 127) ∈
        (saveKubernetesCertificate demoEnv "CERT".toList "KEY".toList
          ⟨bundleFS, []⟩).world.trace) ∧
    (saveKubernetesCertificate demoEnv "CERT".toList "KEY".toList ⟨bundleFS, []⟩).world.fs
      = bundleFS :=
  have h := saveKubernetesCertificate_noKubectl demoEnv "CERT".toList "KEY".toList bundleFS
    (saveKubernetesCertificate demoEnv "CERT".toList "KEY".toList ⟨bundleFS, []⟩).world
    (by decide!) (Outcome.eq_returned _ (by decide!))
  ⟨h.1, h.2 (fun _ _ => rfl)⟩

theorem withoutLog_append (t1 t2 : List Event) :
    withoutLog (t1 ++ t2) = withoutLog t1 ++ withoutLog t2 := by
  simp [withoutLog]

/-- `os.Remove` acts alike on two worlds that differ in log lines only. -/
theorem osRemove_withoutLog (env : Env) (name : Path) (wa wb : World)
    (hfs : wa.fs = wb.fs) (htr : withoutLog wa.trace = withoutLog wb.trace) :
    (osRemove env name wa).1.fs = (osRemove env name wb).1.fs ∧
    withoutLog (osRemove env name wa).1.trace = withoutLog (osRemove env name wb).1.trace := by
  unfold osRemove
  rw [hfs]
  split
  · exact ⟨hfs, by simp only [emit_trace, withoutLog_append, htr]⟩
  · split
    · exact ⟨by simp [hfs], by simp only [emit_trace, withoutLog_append, htr]⟩
    · exact ⟨hfs, by simp only [emit_trace, withoutLog_append, htr]⟩

theorem osRemove_twice_withoutLog (env : Env) (cp kp : Path) (wa wb : World)
    (hfs : wa.fs = wb.fs) (htr : withoutLog wa.trace = withoutLog wb.trace) :
    (osRemove env kp (osRemove env cp wa).1).1.fs =
      (osRemove env kp (osRemove env cp wb).1).1.fs ∧
    withoutLog (osRemove env kp (osRemove env cp wa).1).1.trace =
      withoutLog (osRemove env kp (osRemove env cp wb).1).1.trace := by
  have h7 := osRemove_withoutLog env cp wa wb hfs htr
  exact osRemove_withoutLog env kp _ _ h7.1 h7.2

/-- The label of `savePkcs12Certificate` shows in its log lines only. -/
theorem savePkcs12Certificate_label (env : Env) (pattern target l1 l2 c k : GoString)
    (w : World) :
    (savePkcs12Certificate env pattern target l1 c k w).isReturned =
      (savePkcs12Certificate env pattern target l2 c k w).isReturned ∧
    (savePkcs12Certificate env pattern target l1 c k w).world.fs =
      (savePkcs12Certificate env pattern target l2 c k w).world.fs ∧
    withoutLog (savePkcs12Certificate env pattern target l1 c k w).world.trace =
      withoutLog (savePkcs12Certificate env pattern target l2 c k w).world.trace := by
  unfold savePkcs12Certificate
  simp only []
  split
  · next cp kp hcf hkf =>
    simp only [Outcome.isReturned, Outcome.world, true_and]
    split
    · apply osRemove_twice_withoutLog
      · rfl
      · simp [withoutLog_append, withoutLog]
    · exact ⟨rfl, rfl⟩
  · exact ⟨rfl, rfl, rfl⟩

/-- C9 fails as stated: with one and the same target path the two activators do
not perform the same filesystem operations nor the same tool invocation: their temp
files are named after different patterns, and these names are arguments of the tool. -/
theorem pkcs12_same_algorithm_counterexample :
    sameTargetFlags.vmwareCertPath = sameTargetFlags.browserCertPath ∧
    withoutLog (saveVmwareCertificate demoEnv sameTargetFlags "CERT".toList "KEY".toList
      ⟨emptyFS, []⟩).world.trace
      ≠ withoutLog (saveBrowserCertificate demoEnv sameTargetFlags "CERT".toList "KEY".toList
        ⟨emptyFS, []⟩).world.trace ∧
    execArgs (saveVmwareCertificate demoEnv sameTargetFlags "CERT".toList "KEY".toList
      ⟨emptyFS, []⟩).world.trace
      ≠ execArgs (saveBrowserCertificate demoEnv sameTargetFlags "CERT".toList "KEY".toList
        ⟨emptyFS, []⟩).world.trace := by
  decide!

/-- C9, amended. The VMware and Browser activators are the same algorithm with three
parameters: the pattern of the temp file names, the target path, and the log label.
For every (cert, key) pair and every world, `saveVmwareCertificate` is
`savePkcs12Certificate` at `prodaccess-vmware`, `vmwareCertPath`, `VMware`, and
`saveBrowserCertificate` is it at `prodaccess-browser`, `browserCertPath`, `Browser`;
and the label changes the log lines only, not the filesystem operations, the tool
invocation or the resulting filesystem. -/
theorem pkcs12_same_algorithm :
    (∀ (env : Env) (flags : Flags) (c k : GoString) (w : World),
      saveVmwareCertificate env flags c k w =
        savePkcs12Certificate env "prodaccess-vmware".toList flags.vmwareCertPath
          "VMware".toList c k w) ∧
    (∀ (env : Env) (flags : Flags) (c k : GoString) (w : World),
      saveBrowserCertificate env flags c k w =
        savePkcs12Certificate env "prodaccess-browser".toList flags.browserCertPath
          "Browser".toList c k w) ∧
    (∀ (env : Env) (pattern target l1 l2 c k : GoString) (w : World),
      (savePkcs12Certificate env pattern target l1 c k w).isReturned =
        (savePkcs12Certificate env pattern target l2 c k w).isReturned ∧
      (savePkcs12Certificate env pattern target l1 c k w).world.fs =
        (savePkcs12Certificate env pattern target l2 c k w).world.fs ∧
      withoutLog (savePkcs12Certificate env pattern target l1 c k w).world.trace =
        withoutLog (savePkcs12Certificate env pattern target l2 c k w).world.trace) :=
  ⟨saveVmwareCertificate_eq, saveBrowserCertificate_eq, savePkcs12Certificate_label⟩

end Prodaccess
